import Mathlib

/-!
Verification of the ECS (entity-component-system) core of the game_engine
repository against its natural-language specification.

The development contains three shallow embeddings, each translated from the
Python source:

* `Ecs.Store` models `EntityManager` (src/engine/ecs/entity.py): entity ids
  are naturals, component types are natural tags, and component objects live
  in an identity heap so that teardown-hook invocations (`destroy()`) and the
  owner back-reference (`component.entity`) can be observed, including after
  a component has left the store.
* `Ecs.Sched` models `SystemManager` (src/engine/ecs/system.py): a list of
  systems re-sorted with a stable sort on every insertion (Python `list.sort`
  is guaranteed stable), and a tick that runs the active systems in order.
* `Ecs.GW` models `World` specialised to the built-in components and systems
  (src/engine/ecs/components.py, systems.py) over exact real arithmetic.

Python dictionaries are modelled as functions out of `Nat` (outer dicts) and
as insertion-ordered association lists (the per-entity component dict, whose
key order matters for the destroy cascade); Python sets are modelled as
duplicate-free lists.
-/

namespace Ecs

/-! ### Association-list and map helpers -/

/-- Lookup in an insertion-ordered association list (Python `dict.get`). -/
def alookup {α : Type} : List (Nat × α) → Nat → Option α
  | [], _ => none
  | (k, v) :: rest, key => if k = key then some v else alookup rest key

/-- Membership test (Python `key in dict`). -/
def amem {α : Type} (m : List (Nat × α)) (k : Nat) : Bool :=
  (alookup m k).isSome

/-- Remove the first entry with the given key (Python `del dict[key]`;
entries are unique by invariant). -/
def aerase {α : Type} : List (Nat × α) → Nat → List (Nat × α)
  | [], _ => []
  | (k, v) :: rest, key => if k = key then rest else (k, v) :: aerase rest key

/-- Set a key (Python `dict[key] = v`): replace in place if present,
otherwise append, preserving insertion order. -/
def aset {α : Type} : List (Nat × α) → Nat → α → List (Nat × α)
  | [], key, v => [(key, v)]
  | (k, w) :: rest, key, v =>
      if k = key then (key, v) :: rest else (k, w) :: aset rest key v

/-- Pointwise update of a function-backed map (outer Python dicts). -/
def fupd {α : Type} (f : Nat → α) (k : Nat) (v : α) : Nat → α :=
  fun n => if n = k then v else f n

/-- Python `set.add`: insert if absent. -/
def sadd (l : List Nat) (e : Nat) : List Nat :=
  if l.contains e then l else l ++ [e]

/-- Python `set.discard`: remove if present (duplicate-free by invariant). -/
def sdel (l : List Nat) (e : Nat) : List Nat :=
  l.erase e

@[simp] theorem fupd_same {α : Type} (f : Nat → α) (k : Nat) (v : α) :
    fupd f k v k = v := by
  simp [fupd]

theorem fupd_ne {α : Type} (f : Nat → α) {k n : Nat} (v : α) (h : n ≠ k) :
    fupd f k v n = f n := by
  simp [fupd, h]

@[simp] theorem alookup_nil {α : Type} (k : Nat) :
    alookup ([] : List (Nat × α)) k = none := rfl

theorem contains_iff (l : List Nat) (x : Nat) : l.contains x = true ↔ x ∈ l :=
  List.elem_iff

theorem alookup_eq_none_of_not_mem_keys {α : Type} {m : List (Nat × α)} {k : Nat}
    (h : k ∉ m.map Prod.fst) : alookup m k = none := by
  induction m with
  | nil => rfl
  | cons p rest ih =>
    obtain ⟨a, b⟩ := p
    simp only [List.map_cons, List.mem_cons, not_or] at h
    have hak : ¬ a = k := fun hak => h.1 hak.symm
    simp [alookup, hak, ih h.2]

theorem mem_keys_of_alookup {α : Type} {m : List (Nat × α)} {k : Nat} {v : α}
    (h : alookup m k = some v) : k ∈ m.map Prod.fst := by
  induction m with
  | nil => simp [alookup] at h
  | cons p rest ih =>
    obtain ⟨a, b⟩ := p
    simp only [alookup] at h
    by_cases hak : a = k
    · simp [hak]
    · simp only [if_neg hak] at h
      simp [ih h]

theorem alookup_aerase_ne {α : Type} (m : List (Nat × α)) {k k2 : Nat}
    (h : k2 ≠ k) : alookup (aerase m k) k2 = alookup m k2 := by
  induction m with
  | nil => rfl
  | cons p rest ih =>
    obtain ⟨a, b⟩ := p
    by_cases hk : a = k
    · subst hk
      have hak2 : ¬ a = k2 := fun h2 => h h2.symm
      rw [show aerase ((a, b) :: rest) a = rest from by simp [aerase]]
      simp [alookup, hak2]
    · rw [show aerase ((a, b) :: rest) k = (a, b) :: aerase rest k from by
        simp [aerase, hk]]
      by_cases hk2 : a = k2
      · simp [alookup, hk2]
      · simp [alookup, hk2, ih]

theorem alookup_aerase_self {α : Type} (m : List (Nat × α)) (k : Nat)
    (hnd : (m.map Prod.fst).Nodup) : alookup (aerase m k) k = none := by
  induction m with
  | nil => rfl
  | cons p rest ih =>
    obtain ⟨a, b⟩ := p
    simp only [List.map_cons, List.nodup_cons] at hnd
    by_cases hk : a = k
    · subst hk
      rw [show aerase ((a, b) :: rest) a = rest from by simp [aerase]]
      exact alookup_eq_none_of_not_mem_keys hnd.1
    · rw [show aerase ((a, b) :: rest) k = (a, b) :: aerase rest k from by
        simp [aerase, hk]]
      simp [alookup, hk, ih hnd.2]

theorem keys_aerase_subset {α : Type} (m : List (Nat × α)) (k k2 : Nat)
    (h : k2 ∈ (aerase m k).map Prod.fst) : k2 ∈ m.map Prod.fst := by
  induction m with
  | nil => simp [aerase] at h
  | cons p rest ih =>
    obtain ⟨a, b⟩ := p
    by_cases hk : a = k
    · subst hk
      rw [show aerase ((a, b) :: rest) a = rest from by simp [aerase]] at h
      simp only [List.map_cons, List.mem_cons]
      exact Or.inr h
    · rw [show aerase ((a, b) :: rest) k = (a, b) :: aerase rest k from by
        simp [aerase, hk]] at h
      simp only [List.map_cons, List.mem_cons] at h ⊢
      rcases h with h | h
      · exact Or.inl h
      · exact Or.inr (ih h)

theorem keys_aerase_nodup {α : Type} (m : List (Nat × α)) (k : Nat)
    (hnd : (m.map Prod.fst).Nodup) : ((aerase m k).map Prod.fst).Nodup := by
  induction m with
  | nil => simp [aerase]
  | cons p rest ih =>
    obtain ⟨a, b⟩ := p
    simp only [List.map_cons, List.nodup_cons] at hnd
    by_cases hk : a = k
    · subst hk
      rw [show aerase ((a, b) :: rest) a = rest from by simp [aerase]]
      exact hnd.2
    · rw [show aerase ((a, b) :: rest) k = (a, b) :: aerase rest k from by
        simp [aerase, hk]]
      simp only [List.map_cons, List.nodup_cons]
      exact ⟨fun h => hnd.1 (keys_aerase_subset rest k a h), ih hnd.2⟩

theorem alookup_aset_self {α : Type} (m : List (Nat × α)) (k : Nat) (v : α) :
    alookup (aset m k v) k = some v := by
  induction m with
  | nil => simp [aset, alookup]
  | cons p rest ih =>
    obtain ⟨a, b⟩ := p
    by_cases hk : a = k
    · subst hk
      simp [aset, alookup]
    · simp [aset, hk, alookup, ih]

theorem alookup_aset_ne {α : Type} (m : List (Nat × α)) {k k2 : Nat} (v : α)
    (h : k2 ≠ k) : alookup (aset m k v) k2 = alookup m k2 := by
  induction m with
  | nil => simp [aset, alookup, Ne.symm h]
  | cons p rest ih =>
    obtain ⟨a, b⟩ := p
    by_cases hk : a = k
    · subst hk
      simp [aset, alookup, Ne.symm h]
    · by_cases hk2 : a = k2
      · subst hk2
        simp [aset, hk, alookup]
      · simp [aset, hk, alookup, hk2, ih]

theorem keys_aset {α : Type} (m : List (Nat × α)) (k : Nat) (v : α) (k2 : Nat) :
    k2 ∈ (aset m k v).map Prod.fst ↔ k2 ∈ m.map Prod.fst ∨ k2 = k := by
  induction m with
  | nil => simp [aset]
  | cons p rest ih =>
    obtain ⟨a, b⟩ := p
    by_cases hk : a = k
    · subst hk
      rw [show aset ((a, b) :: rest) a v = (a, v) :: rest from by simp [aset]]
      simp only [List.map_cons, List.mem_cons]
      tauto
    · rw [show aset ((a, b) :: rest) k v = (a, b) :: aset rest k v from by
        simp [aset, hk]]
      simp only [List.map_cons, List.mem_cons, ih]
      tauto

theorem keys_aset_nodup {α : Type} (m : List (Nat × α)) (k : Nat) (v : α)
    (hnd : (m.map Prod.fst).Nodup) : ((aset m k v).map Prod.fst).Nodup := by
  induction m with
  | nil => simp [aset]
  | cons p rest ih =>
    obtain ⟨a, b⟩ := p
    simp only [List.map_cons, List.nodup_cons] at hnd
    by_cases hk : a = k
    · subst hk
      rw [show aset ((a, b) :: rest) a v = (a, v) :: rest from by simp [aset]]
      simp only [List.map_cons, List.nodup_cons]
      exact hnd
    · rw [show aset ((a, b) :: rest) k v = (a, b) :: aset rest k v from by
        simp [aset, hk]]
      simp only [List.map_cons, List.nodup_cons]
      refine ⟨fun h => ?_, ih hnd.2⟩
      rcases (keys_aset rest k v a).1 h with h2 | h2
      · exact hnd.1 h2
      · exact hk h2

theorem mem_sadd (l : List Nat) (e x : Nat) :
    x ∈ sadd l e ↔ x ∈ l ∨ x = e := by
  by_cases h : e ∈ l
  · rw [show sadd l e = l from by simp [sadd, contains_iff l e, h]]
    constructor
    · exact Or.inl
    · rintro (hx | rfl) <;> assumption
  · rw [show sadd l e = l ++ [e] from by simp [sadd, contains_iff l e, h]]
    simp

theorem sadd_nodup (l : List Nat) (e : Nat) (h : l.Nodup) :
    (sadd l e).Nodup := by
  by_cases hc : e ∈ l
  · rw [show sadd l e = l from by simp [sadd, contains_iff l e, hc]]
    exact h
  · rw [show sadd l e = l ++ [e] from by simp [sadd, contains_iff l e, hc]]
    simp only [List.nodup_append, List.nodup_cons, List.not_mem_nil,
      not_false_eq_true, List.nodup_nil, and_true, true_and, h]
    intro x hx
    simp only [List.mem_singleton]
    exact fun h2 => hc (h2 ▸ hx)

theorem mem_sdel (l : List Nat) (e x : Nat) (hnd : l.Nodup) :
    x ∈ sdel l e ↔ x ∈ l ∧ x ≠ e := by
  unfold sdel
  constructor
  · intro h
    exact ⟨List.mem_of_mem_erase h, ((List.Nodup.mem_erase_iff hnd).1 h).1⟩
  · intro h2
    exact (List.Nodup.mem_erase_iff hnd).2 ⟨h2.2, h2.1⟩

theorem sdel_nodup (l : List Nat) (e : Nat) (h : l.Nodup) :
    (sdel l e).Nodup := List.Nodup.erase e h

/-! ### The entity store: `EntityManager` from src/engine/ecs/entity.py

Entity ids are naturals (the source uses strings, but only compares them
for equality), component types are natural tags (the source keys on the
Python class object `type(component)`), and component instances are
naturals naming cells of an identity heap.  A heap cell records the
component's type (`type(component)`, immutable in Python), its
`entity` owner back-reference, and how many times its `destroy()` teardown
hook has been invoked.  All built-in components derive from `Component`,
so the `hasattr(component, 'destroy')` / `hasattr(component, 'entity')`
guards in the source are always true and are modelled as unconditional. -/

/-- One Python component object: its class (`cty`), its `entity`
back-reference, and a counter of `destroy()` invocations. -/
structure CompObj where
  cty : Nat
  owner : Option Nat
  destroyCount : Nat
deriving DecidableEq

/-- State of an `EntityManager` plus the identity heap of every component
object in play (attached or not).  `entities` is the key list of
`self.entities`; `components` maps an entity id to the insertion-ordered
association list modelling `self.components[eid]` (`none` when the key is
absent, i.e. indexing raises `KeyError`); `component_index` maps a type tag
to the id set `self.component_index[t]` (the source deletes the key when
the set becomes empty, and every read uses `.get(t, set())`, so the empty
list also models the absent key). -/
structure Store where
  entities : List Nat
  components : Nat → Option (List (Nat × Nat))
  component_index : Nat → List Nat
  heap : Nat → Option CompObj

/-- Effect of `component.destroy()` on a heap cell: the teardown hook of
the base `Component` class is a `pass`, so the only observable is that the
hook ran once more. -/
def bump : Option CompObj → Option CompObj
  | some c => some { c with destroyCount := c.destroyCount + 1 }
  | none => none

/-- Effect of `component.entity = entity` on a heap cell. -/
def setOwner (e : Nat) : Option CompObj → Option CompObj
  | some c => some { c with owner := some e }
  | none => none

namespace Store

/-- EntityManager.create_entity with an explicit id.  The source stores
`Entity(entity_id)` under `entities[id]` and resets `components[id]` to an
empty dict; an already-used id is silently overwritten (no error is raised
anywhere in this method).  The uuid4 branch for a missing id is random and
outside this model. -/
def create_entity (s : Store) (e : Nat) : Store :=
  { s with
    entities := if s.entities.contains e then s.entities else s.entities ++ [e],
    components := fupd s.components e (some []) }

/-- EntityManager.has_component.  `component_type in self.components[entity.id]`;
the result is `none` when `entity.id` is not a key of `self.components`
(Python raises `KeyError` there). -/
def has_component (s : Store) (e ct : Nat) : Option Bool :=
  match s.components e with
  | none => none
  | some m => some (amem m ct)

/-- EntityManager.get_component: `self.components[entity.id].get(component_type)`,
returning the component (as its heap cell id); `none` both for a missing
component and (collapsing the `KeyError`) for a missing entity. -/
def get_component (s : Store) (e ct : Nat) : Option Nat :=
  match s.components e with
  | none => none
  | some m => alookup m ct

/-- EntityManager.remove_component.  Invokes the component's `destroy()`
hook (modelled as bumping its heap counter), deletes the map entry, and
discards the id from the type index (the source also deletes the index key
when the set empties, which the list model collapses into removal).
Returns the Python boolean result; when the entity id is missing the
source raises `KeyError` before mutating anything, so the state is
returned unchanged. -/
def remove_component (s : Store) (e ct : Nat) : Store × Bool :=
  match s.components e with
  | none => (s, false)
  | some m =>
    match alookup m ct with
    | none => (s, false)
    | some cid =>
      ({ s with
          heap := fupd s.heap cid (bump (s.heap cid)),
          components := fupd s.components e (some (aerase m ct)),
          component_index := fupd s.component_index ct (sdel (s.component_index ct) e) },
       true)

/-- EntityManager.add_component.  Reads `type(component)` from the heap
cell, removes an existing component of the same type, files the new one in
the per-entity map and the type index, and sets the component's `entity`
back-reference.  When `entity.id` is not a key of `self.components` the
source raises `KeyError` before mutating anything. -/
def add_component (s : Store) (e cid : Nat) : Store :=
  match s.heap cid with
  | none => s
  | some c =>
    let ct := c.cty
    match s.components e with
    | none => s
    | some m =>
      let s1 := if amem m ct then (s.remove_component e ct).1 else s
      match s1.components e with
      | none => s1
      | some m1 =>
        { s1 with
          components := fupd s1.components e (some (aset m1 ct cid)),
          component_index := fupd s1.component_index ct (sadd (s1.component_index ct) e),
          heap := fupd s1.heap cid (setOwner e (s1.heap cid)) }

/-- The destroy cascade: `for component_type in list(self.components[entity.id].keys()):
self.remove_component(entity, component_type)`. -/
def removeAll (s : Store) (e : Nat) (cts : List Nat) : Store :=
  cts.foldl (fun s2 ct => (s2.remove_component e ct).1) s

/-- EntityManager.destroy_entity: when the id exists, remove every
component (iterating a snapshot of the per-entity dict keys, in insertion
order), then delete the entity and its component map. -/
def destroy_entity (s : Store) (e : Nat) : Store :=
  if s.entities.contains e then
    let cts := match s.components e with
      | some m => m.map Prod.fst
      | none => []
    let s1 := removeAll s e cts
    { s1 with
      entities := s1.entities.erase e,
      components := fupd s1.components e none }
  else s

/-- EntityManager.get_entities_with_components (the multi-type query):
with no types, every entity; otherwise the intersection of the type-index
sets for all the given types, filtered to ids still present in
`self.entities`.  Python iterates sets in unspecified order, so only the
membership of the returned list is meaningful. -/
def get_entities_with_components (s : Store) (ts : List Nat) : List Nat :=
  match ts with
  | [] => s.entities
  | t0 :: rest =>
    let result := rest.foldl
      (fun acc t => acc.filter (fun e => (s.component_index t).contains e))
      (s.component_index t0)
    result.filter (fun e => s.entities.contains e)

/-- EntityManager.get_entities_with_component (single-type form). -/
def get_entities_with_component (s : Store) (t : Nat) : List Nat :=
  (s.component_index t).filter (fun e => s.entities.contains e)

end Store

/-- One store operation, for reasoning about operation sequences. -/
inductive Op where
  | create (e : Nat)
  | add (e cid : Nat)
  | remove (e ct : Nat)
  | destroy (e : Nat)
deriving DecidableEq

/-- Big-step of one operation. -/
def stepOp (s : Store) : Op → Store
  | .create e => s.create_entity e
  | .add e cid => s.add_component e cid
  | .remove e ct => (s.remove_component e ct).1
  | .destroy e => s.destroy_entity e

/-- Run a sequence of operations. -/
def runOps (s : Store) (ops : List Op) : Store :=
  ops.foldl stepOp s

/-- A trace is safe when every `create` uses an id that is fresh at the
moment it executes (the claims only quantify over add/remove/destroy
sequences; creates are needed to populate the store, and a duplicate-id
create silently resets a component map, which is exactly the behavior
claim C5 is about). -/
def safeTrace (s : Store) : List Op → Bool
  | [] => true
  | op :: rest =>
    (match op with
     | .create e => !(s.entities.contains e)
     | _ => true) && safeTrace (stepOp s op) rest

/-- An empty store over a given initial heap of component objects. -/
def mkInit (heapL : List (Nat × CompObj)) : Store :=
  { entities := [],
    components := fun _ => none,
    component_index := fun _ => [],
    heap := fun cid => alookup heapL cid }

/-! ### Store invariants -/

/-- The central index-consistency invariant: an id is in a type's index
iff the store currently holds a component of that type for that id. -/
def Inv (s : Store) : Prop :=
  ∀ ct e, e ∈ s.component_index ct ↔ s.has_component e ct = some true

/-- The key sets of `self.entities` and `self.components` coincide. -/
def EntOk (s : Store) : Prop :=
  ∀ e, s.entities.contains e = true ↔ (s.components e).isSome = true

/-- Per-entity component maps have duplicate-free keys (Python dict). -/
def KeysOk (s : Store) : Prop :=
  ∀ e m, s.components e = some m → (m.map Prod.fst).Nodup

/-- A component filed under type `ct` is a live heap cell of class `ct`
(`type(component)` is immutable in Python). -/
def TyOk (s : Store) : Prop :=
  ∀ e m ct cid, s.components e = some m → alookup m ct = some cid →
    ∃ c, s.heap cid = some c ∧ c.cty = ct

/-- Type-index sets are duplicate-free (Python set). -/
def IdxOk (s : Store) : Prop :=
  ∀ ct, (s.component_index ct).Nodup

/-- Entity-id list is duplicate-free (Python dict keys). -/
def EntsNodup (s : Store) : Prop :=
  s.entities.Nodup

/-- All the store invariants together. -/
def WF (s : Store) : Prop :=
  EntOk s ∧ KeysOk s ∧ TyOk s ∧ IdxOk s ∧ EntsNodup s ∧ Inv s

theorem wf_mkInit (heapL : List (Nat × CompObj)) : WF (mkInit heapL) := by
  refine ⟨?_, ?_, ?_, ?_, ?_, ?_⟩
  · intro e
    simp [mkInit, List.contains]
  · intro e m h
    simp [mkInit] at h
  · intro e m ct cid h
    simp [mkInit] at h
  · intro ct
    simp [mkInit]
  · simp [mkInit, EntsNodup]
  · intro ct e
    simp [mkInit, Store.has_component]

/-! ### Equation lemmas for the store operations -/

namespace Store

variable {s : Store} {e ct cid : Nat} {m : List (Nat × Nat)}

theorem remove_component_missing_entity (h : s.components e = none) :
    s.remove_component e ct = (s, false) := by
  simp [remove_component, h]

theorem remove_component_missing_comp (hm : s.components e = some m)
    (h : alookup m ct = none) : s.remove_component e ct = (s, false) := by
  simp [remove_component, hm, h]

theorem remove_component_eq (hm : s.components e = some m)
    (hc : alookup m ct = some cid) :
    s.remove_component e ct =
      ({ s with
          heap := fupd s.heap cid (bump (s.heap cid)),
          components := fupd s.components e (some (aerase m ct)),
          component_index := fupd s.component_index ct (sdel (s.component_index ct) e) },
       true) := by
  simp [remove_component, hm, hc]

theorem add_component_missing_heap (h : s.heap cid = none) :
    s.add_component e cid = s := by
  simp [add_component, h]

theorem add_component_missing_entity {c : CompObj} (hc : s.heap cid = some c)
    (h : s.components e = none) : s.add_component e cid = s := by
  simp [add_component, hc, h]

theorem add_component_fresh {c : CompObj} (hc : s.heap cid = some c)
    (hm : s.components e = some m) (hmem : amem m c.cty = false) :
    s.add_component e cid =
      { s with
        components := fupd s.components e (some (aset m c.cty cid)),
        component_index := fupd s.component_index c.cty (sadd (s.component_index c.cty) e),
        heap := fupd s.heap cid (setOwner e (s.heap cid)) } := by
  simp [add_component, hc, hm, hmem]

theorem add_component_replace {c : CompObj} (hc : s.heap cid = some c)
    (hm : s.components e = some m) (hmem : amem m c.cty = true)
    (hnd : (m.map Prod.fst).Nodup) :
    s.add_component e cid = ((s.remove_component e c.cty).1).add_component e cid := by
  obtain ⟨cid0, hcid0⟩ : ∃ cid0, alookup m c.cty = some cid0 := by
    revert hmem
    unfold amem
    cases alookup m c.cty with
    | none => simp
    | some x => exact fun _ => ⟨x, rfl⟩
  have hrc := remove_component_eq hm hcid0
  have hs1c : ((s.remove_component e c.cty).1).components e = some (aerase m c.cty) := by
    rw [hrc]
    simp
  have hs1mem : amem (aerase m c.cty) c.cty = false := by
    unfold amem
    rw [alookup_aerase_self m c.cty hnd]
    rfl
  obtain ⟨c2, hc2, hcty2⟩ :
      ∃ c2, ((s.remove_component e c.cty).1).heap cid = some c2 ∧ c2.cty = c.cty := by
    rw [hrc]
    by_cases hcc : cid = cid0
    · subst hcc
      refine ⟨{ c with destroyCount := c.destroyCount + 1 }, ?_, rfl⟩
      show fupd s.heap cid (bump (s.heap cid)) cid = _
      rw [fupd_same, hc]
      rfl
    · refine ⟨c, ?_, rfl⟩
      show fupd s.heap cid0 (bump (s.heap cid0)) cid = _
      rw [fupd_ne _ _ hcc, hc]
  conv_lhs => rw [add_component]
  rw [hc, hm]
  simp only [hmem, if_true]
  conv_rhs => rw [add_component]
  simp only [hc2, hcty2, hs1c, hs1mem, Bool.false_eq_true, if_false]

end Store

/-! ### Preservation of the store invariants -/

theorem bump_cty (o : Option CompObj) :
    (bump o).map CompObj.cty = o.map CompObj.cty := by
  cases o <;> rfl

theorem setOwner_cty (e : Nat) (o : Option CompObj) :
    (setOwner e o).map CompObj.cty = o.map CompObj.cty := by
  cases o <;> rfl

theorem exists_of_map_cty {o : Option CompObj} {ct : Nat}
    (h : o.map CompObj.cty = some ct) : ∃ c, o = some c ∧ c.cty = ct := by
  cases o with
  | none => simp at h
  | some c => exact ⟨c, rfl, by simpa using h⟩

theorem has_component_fupd_self {s : Store} {e ct : Nat} {m : List (Nat × Nat)} :
    Store.has_component { s with components := fupd s.components e (some m) } e ct
      = some (amem m ct) := by
  simp [Store.has_component, fupd]

namespace Store

variable {s : Store} {e ct cid : Nat} {m : List (Nat × Nat)}

theorem wf_remove (h : WF s) (e ct : Nat) : WF ((s.remove_component e ct).1) := by
  obtain ⟨hEnt, hKeys, hTy, hIdx, hNd, hInv⟩ := h
  cases hm : s.components e with
  | none =>
    rw [remove_component_missing_entity hm]
    exact ⟨hEnt, hKeys, hTy, hIdx, hNd, hInv⟩
  | some m =>
    cases hc : alookup m ct with
    | none =>
      rw [remove_component_missing_comp hm hc]
      exact ⟨hEnt, hKeys, hTy, hIdx, hNd, hInv⟩
    | some cid =>
      have hce : (s.remove_component e ct).1.components
          = fupd s.components e (some (aerase m ct)) := by
        rw [remove_component_eq hm hc]
      have hie : (s.remove_component e ct).1.component_index
          = fupd s.component_index ct (sdel (s.component_index ct) e) := by
        rw [remove_component_eq hm hc]
      have hhe : (s.remove_component e ct).1.heap
          = fupd s.heap cid (bump (s.heap cid)) := by
        rw [remove_component_eq hm hc]
      have hee : (s.remove_component e ct).1.entities = s.entities := by
        rw [remove_component_eq hm hc]
      have hndm : (m.map Prod.fst).Nodup := hKeys e m hm
      have hhas : ∀ e2 ct2, (s.remove_component e ct).1.has_component e2 ct2
          = if e2 = e then some (amem (aerase m ct) ct2)
            else s.has_component e2 ct2 := by
        intro e2 ct2
        by_cases he2 : e2 = e
        · subst he2
          simp [Store.has_component, hce, fupd]
        · simp [Store.has_component, hce, fupd, he2]
      refine ⟨?_, ?_, ?_, ?_, ?_, ?_⟩
      · intro e2
        rw [hee, hce]
        by_cases he2 : e2 = e
        · subst he2
          rw [fupd_same, hEnt e2, hm]
          simp
        · rw [fupd_ne _ _ he2]
          exact hEnt e2
      · intro e2 m2 hm2
        rw [hce] at hm2
        by_cases he2 : e2 = e
        · subst he2
          rw [fupd_same] at hm2
          cases hm2
          exact keys_aerase_nodup m ct hndm
        · rw [fupd_ne _ _ he2] at hm2
          exact hKeys e2 m2 hm2
      · intro e2 m2 ct2 cid2 hm2 hl2
        rw [hce] at hm2
        rw [hhe]
        have hcty : (s.heap cid2).map CompObj.cty = some ct2 := by
          by_cases he2 : e2 = e
          · subst he2
            rw [fupd_same] at hm2
            cases hm2
            by_cases hct2 : ct2 = ct
            · subst hct2
              rw [alookup_aerase_self m ct2 hndm] at hl2
              cases hl2
            · rw [alookup_aerase_ne m hct2] at hl2
              obtain ⟨c2, hc2, hcty2⟩ := hTy _ m ct2 cid2 hm hl2
              rw [hc2]
              simpa using hcty2
          · rw [fupd_ne _ _ he2] at hm2
            obtain ⟨c2, hc2, hcty2⟩ := hTy e2 m2 ct2 cid2 hm2 hl2
            rw [hc2]
            simpa using hcty2
        have h4 : ((fupd s.heap cid (bump (s.heap cid))) cid2).map CompObj.cty
            = some ct2 := by
          by_cases hcc : cid2 = cid
          · subst hcc
            rw [fupd_same, bump_cty]
            exact hcty
          · rw [fupd_ne _ _ hcc]
            exact hcty
        exact exists_of_map_cty h4
      · intro ct2
        rw [hie]
        by_cases hct2 : ct2 = ct
        · subst hct2
          rw [fupd_same]
          exact sdel_nodup _ e (hIdx ct2)
        · rw [fupd_ne _ _ hct2]
          exact hIdx ct2
      · unfold EntsNodup
        rw [hee]
        exact hNd
      · intro ct2 e2
        rw [hhas e2 ct2, hie]
        by_cases hct2 : ct2 = ct
        · subst hct2
          rw [fupd_same]
          by_cases he2 : e2 = e
          · subst he2
            rw [if_pos rfl]
            have h1 : e2 ∉ sdel (s.component_index ct2) e2 := by
              intro hmem
              exact ((mem_sdel _ e2 e2 (hIdx ct2)).1 hmem).2 rfl
            have h2 : amem (aerase m ct2) ct2 = false := by
              unfold amem
              rw [alookup_aerase_self m ct2 hndm]
              rfl
            rw [h2]
            constructor
            · intro hmem
              exact absurd hmem h1
            · intro hfalse
              cases hfalse
          · rw [if_neg he2]
            rw [mem_sdel _ e e2 (hIdx ct2)]
            rw [hInv ct2 e2]
            constructor
            · exact fun h2 => h2.1
            · exact fun h2 => ⟨h2, he2⟩
        · rw [fupd_ne _ _ hct2]
          by_cases he2 : e2 = e
          · subst he2
            rw [if_pos rfl]
            have h2 : amem (aerase m ct) ct2 = amem m ct2 := by
              unfold amem
              rw [alookup_aerase_ne m hct2]
            rw [h2, hInv ct2 e2]
            rw [Store.has_component, hm]
          · rw [if_neg he2]
            exact hInv ct2 e2

theorem fupd_cty_preserving (f : Nat → Option CompObj) (cid : Nat)
    (g : Option CompObj → Option CompObj)
    (hg : ∀ o, (g o).map CompObj.cty = o.map CompObj.cty) (cid2 : Nat) :
    ((fupd f cid (g (f cid))) cid2).map CompObj.cty = (f cid2).map CompObj.cty := by
  by_cases hcc : cid2 = cid
  · subst hcc
    rw [fupd_same, hg]
  · rw [fupd_ne _ _ hcc]

theorem wf_add_fresh {c : CompObj} (h : WF s) (hcid : s.heap cid = some c)
    (hm : s.components e = some m) (hmem : amem m c.cty = false) :
    WF (s.add_component e cid) := by
  obtain ⟨hEnt, hKeys, hTy, hIdx, hNd, hInv⟩ := h
  have hce : (s.add_component e cid).components
      = fupd s.components e (some (aset m c.cty cid)) := by
    rw [add_component_fresh hcid hm hmem]
  have hie : (s.add_component e cid).component_index
      = fupd s.component_index c.cty (sadd (s.component_index c.cty) e) := by
    rw [add_component_fresh hcid hm hmem]
  have hhe : (s.add_component e cid).heap
      = fupd s.heap cid (setOwner e (s.heap cid)) := by
    rw [add_component_fresh hcid hm hmem]
  have hee : (s.add_component e cid).entities = s.entities := by
    rw [add_component_fresh hcid hm hmem]
  have hndm : (m.map Prod.fst).Nodup := hKeys e m hm
  have hhas : ∀ e2 ct2, (s.add_component e cid).has_component e2 ct2
      = if e2 = e then some (amem (aset m c.cty cid) ct2)
        else s.has_component e2 ct2 := by
    intro e2 ct2
    by_cases he2 : e2 = e
    · subst he2
      simp [Store.has_component, hce, fupd]
    · simp [Store.has_component, hce, fupd, he2]
  refine ⟨?_, ?_, ?_, ?_, ?_, ?_⟩
  · intro e2
    rw [hee, hce]
    by_cases he2 : e2 = e
    · subst he2
      rw [fupd_same, hEnt e2, hm]
      simp
    · rw [fupd_ne _ _ he2]
      exact hEnt e2
  · intro e2 m2 hm2
    rw [hce] at hm2
    by_cases he2 : e2 = e
    · subst he2
      rw [fupd_same] at hm2
      cases hm2
      exact keys_aset_nodup m c.cty cid hndm
    · rw [fupd_ne _ _ he2] at hm2
      exact hKeys e2 m2 hm2
  · intro e2 m2 ct2 cid2 hm2 hl2
    rw [hce] at hm2
    rw [hhe]
    have hmap : ∀ cid3, ((fupd s.heap cid (setOwner e (s.heap cid))) cid3).map CompObj.cty
        = (s.heap cid3).map CompObj.cty :=
      fupd_cty_preserving s.heap cid (setOwner e) (setOwner_cty e)
    have hcty : (s.heap cid2).map CompObj.cty = some ct2 := by
      by_cases he2 : e2 = e
      · subst he2
        rw [fupd_same] at hm2
        cases hm2
        by_cases hct2 : ct2 = c.cty
        · subst hct2
          rw [alookup_aset_self] at hl2
          cases hl2
          rw [hcid]
          rfl
        · rw [alookup_aset_ne m cid hct2] at hl2
          obtain ⟨c2, hc2, hcty2⟩ := hTy _ m ct2 cid2 hm hl2
          rw [hc2]
          simpa using hcty2
      · rw [fupd_ne _ _ he2] at hm2
        obtain ⟨c2, hc2, hcty2⟩ := hTy e2 m2 ct2 cid2 hm2 hl2
        rw [hc2]
        simpa using hcty2
    rw [← hmap cid2] at hcty
    exact exists_of_map_cty hcty
  · intro ct2
    rw [hie]
    by_cases hct2 : ct2 = c.cty
    · subst hct2
      rw [fupd_same]
      exact sadd_nodup _ e (hIdx c.cty)
    · rw [fupd_ne _ _ hct2]
      exact hIdx ct2
  · unfold EntsNodup
    rw [hee]
    exact hNd
  · intro ct2 e2
    rw [hhas e2 ct2, hie]
    by_cases hct2 : ct2 = c.cty
    · subst hct2
      rw [fupd_same, mem_sadd]
      by_cases he2 : e2 = e
      · subst he2
        rw [if_pos rfl]
        have h2 : amem (aset m c.cty cid) c.cty = true := by
          unfold amem
          rw [alookup_aset_self]
          rfl
        rw [h2]
        simp
      · rw [if_neg he2]
        rw [hInv c.cty e2]
        constructor
        · intro h2
          rcases h2 with h2 | h2
          · exact h2
          · exact absurd h2 he2
        · exact Or.inl
    · rw [fupd_ne _ _ hct2]
      by_cases he2 : e2 = e
      · subst he2
        rw [if_pos rfl]
        have h2 : amem (aset m c.cty cid) ct2 = amem m ct2 := by
          unfold amem
          rw [alookup_aset_ne m cid (fun h3 => hct2 h3)]
        rw [h2, hInv ct2 e2]
        rw [Store.has_component, hm]
      · rw [if_neg he2]
        exact hInv ct2 e2

theorem wf_add (h : WF s) (e cid : Nat) : WF (s.add_component e cid) := by
  cases hcid : s.heap cid with
  | none =>
    rw [add_component_missing_heap hcid]
    exact h
  | some c =>
    cases hm : s.components e with
    | none =>
      rw [add_component_missing_entity hcid hm]
      exact h
    | some m =>
      by_cases hmem : amem m c.cty
      · have hndm : (m.map Prod.fst).Nodup := h.2.1 e m hm
        rw [add_component_replace hcid hm hmem hndm]
        have hwf1 : WF ((s.remove_component e c.cty).1) := wf_remove h e c.cty
        obtain ⟨cid0, hcid0⟩ : ∃ cid0, alookup m c.cty = some cid0 := by
          revert hmem
          unfold amem
          cases alookup m c.cty with
          | none => simp
          | some x => exact fun _ => ⟨x, rfl⟩
        have hrc := remove_component_eq hm hcid0
        have hs1c : ((s.remove_component e c.cty).1).components e
            = some (aerase m c.cty) := by
          rw [hrc]
          simp
        obtain ⟨c2, hc2, hcty2⟩ :
            ∃ c2, ((s.remove_component e c.cty).1).heap cid = some c2
              ∧ c2.cty = c.cty := by
          rw [hrc]
          by_cases hcc : cid = cid0
          · subst hcc
            refine ⟨{ c with destroyCount := c.destroyCount + 1 }, ?_, rfl⟩
            show fupd s.heap cid (bump (s.heap cid)) cid = _
            rw [fupd_same, hcid]
            rfl
          · refine ⟨c, ?_, rfl⟩
            show fupd s.heap cid0 (bump (s.heap cid0)) cid = _
            rw [fupd_ne _ _ hcc, hcid]
        have hs1mem : amem (aerase m c.cty) c2.cty = false := by
          rw [hcty2]
          unfold amem
          rw [alookup_aerase_self m c.cty hndm]
          rfl
        exact wf_add_fresh hwf1 hc2 hs1c hs1mem
      · exact wf_add_fresh h hcid hm (by simpa using hmem)

theorem create_entity_fresh_eq (h : s.entities.contains e = false) :
    s.create_entity e =
      { s with
        entities := s.entities ++ [e],
        components := fupd s.components e (some []) } := by
  have hne : e ∉ s.entities := by
    intro h2
    rw [(contains_iff s.entities e).2 h2] at h
    cases h
  simp [create_entity, hne]

theorem wf_create (h : WF s) (hfresh : s.entities.contains e = false) :
    WF (s.create_entity e) := by
  obtain ⟨hEnt, hKeys, hTy, hIdx, hNd, hInv⟩ := h
  have hne : e ∉ s.entities := by
    intro h2
    have h3 := (contains_iff s.entities e).2 h2
    rw [h3] at hfresh
    cases hfresh
  have hcmpnone : s.components e = none := by
    cases h2 : s.components e with
    | none => rfl
    | some m2 =>
      have h3 : s.entities.contains e = true := by
        rw [hEnt e, h2]
        rfl
      rw [h3] at hfresh
      cases hfresh
  have hce : (s.create_entity e).components = fupd s.components e (some []) := by
    rw [create_entity_fresh_eq hfresh]
  have hee : (s.create_entity e).entities = s.entities ++ [e] := by
    rw [create_entity_fresh_eq hfresh]
  have hie : (s.create_entity e).component_index = s.component_index := by
    rw [create_entity_fresh_eq hfresh]
  have hhe : (s.create_entity e).heap = s.heap := by
    rw [create_entity_fresh_eq hfresh]
  have hmemapp : ∀ x, x ∈ s.entities ++ [e] ↔ x ∈ s.entities ∨ x = e := by
    intro x
    simp
  refine ⟨?_, ?_, ?_, ?_, ?_, ?_⟩
  · intro e2
    rw [hee, hce]
    by_cases he2 : e2 = e
    · subst he2
      rw [fupd_same]
      constructor
      · intro _
        rfl
      · intro _
        rw [contains_iff]
        simp
    · rw [fupd_ne _ _ he2]
      rw [contains_iff, hmemapp e2]
      constructor
      · intro h2
        rcases h2 with h2 | h2
        · exact (hEnt e2).1 ((contains_iff _ _).2 h2)
        · exact absurd h2 he2
      · intro h2
        exact Or.inl ((contains_iff _ _).1 ((hEnt e2).2 h2))
  · intro e2 m2 hm2
    rw [hce] at hm2
    by_cases he2 : e2 = e
    · subst he2
      rw [fupd_same] at hm2
      cases hm2
      simp
    · rw [fupd_ne _ _ he2] at hm2
      exact hKeys e2 m2 hm2
  · intro e2 m2 ct2 cid2 hm2 hl2
    rw [hce] at hm2
    rw [hhe]
    by_cases he2 : e2 = e
    · subst he2
      rw [fupd_same] at hm2
      cases hm2
      cases hl2
    · rw [fupd_ne _ _ he2] at hm2
      exact hTy e2 m2 ct2 cid2 hm2 hl2
  · intro ct2
    rw [hie]
    exact hIdx ct2
  · unfold EntsNodup
    rw [hee]
    rw [List.nodup_append]
    refine ⟨hNd, by simp, ?_⟩
    intro x hx hxe
    rw [List.mem_singleton] at hxe
    exact hne (hxe ▸ hx)
  · intro ct2 e2
    rw [hie]
    have hhas : (s.create_entity e).has_component e2 ct2
        = if e2 = e then some (amem ([] : List (Nat × Nat)) ct2)
          else s.has_component e2 ct2 := by
      by_cases he2 : e2 = e
      · subst he2
        simp [Store.has_component, hce, fupd]
      · simp [Store.has_component, hce, fupd, he2]
    rw [hhas]
    by_cases he2 : e2 = e
    · subst he2
      rw [if_pos rfl]
      have h1 : e2 ∉ s.component_index ct2 := by
        intro h2
        have h3 := (hInv ct2 e2).1 h2
        rw [Store.has_component, hcmpnone] at h3
        cases h3
      constructor
      · intro h2
        exact absurd h2 h1
      · intro h2
        rw [show amem ([] : List (Nat × Nat)) ct2 = false from rfl] at h2
        cases h2
    · rw [if_neg he2]
      exact hInv ct2 e2

/-- In a well-formed store, the component ids filed for one entity are
pairwise distinct (each is a heap cell whose immutable class equals its
key, and keys are distinct). -/
theorem alookup_of_mem_of_nodup {m : List (Nat × Nat)} {p : Nat × Nat}
    (hnd : (m.map Prod.fst).Nodup) (hp : p ∈ m) :
    alookup m p.1 = some p.2 := by
  induction m with
  | nil => cases hp
  | cons q rest ih =>
    obtain ⟨a, b⟩ := q
    simp only [List.map_cons, List.nodup_cons] at hnd
    rcases List.mem_cons.1 hp with h2 | h2
    · subst h2
      simp [alookup]
    · have hpa : ¬ a = p.1 := by
        intro h3
        exact hnd.1 (h3 ▸ (List.mem_map.2 ⟨p, h2, rfl⟩))
      simp only [alookup, if_neg hpa]
      exact ih hnd.2 h2

theorem vals_nodup (h : WF s) (hm : s.components e = some m) :
    (m.map Prod.snd).Nodup := by
  obtain ⟨hEnt, hKeys, hTy, hIdx, hNd, hInv⟩ := h
  have hknd := hKeys e m hm
  have hmnd : m.Nodup := List.Nodup.of_map Prod.fst hknd
  refine List.Nodup.map_on ?_ hmnd
  intro p hp q hq hpq
  have hlp := alookup_of_mem_of_nodup hknd hp
  have hlq := alookup_of_mem_of_nodup hknd hq
  obtain ⟨cp, hcp, hcpty⟩ := hTy e m p.1 p.2 hm hlp
  obtain ⟨cq, hcq, hcqty⟩ := hTy e m q.1 q.2 hm hlq
  have hkey : p.1 = q.1 := by
    rw [hpq] at hcp
    rw [hcp] at hcq
    cases hcq
    rw [← hcpty, ← hcqty]
  have hval : p.2 = q.2 := hpq
  exact Prod.ext hkey hval

theorem removeAll_spec (h : WF s) (hm : s.components e = some m)
    (hvals : (m.map Prod.snd).Nodup) :
    WF (removeAll s e (m.map Prod.fst))
    ∧ (removeAll s e (m.map Prod.fst)).components e = some []
    ∧ (removeAll s e (m.map Prod.fst)).entities = s.entities
    ∧ (∀ e2, e2 ≠ e → (removeAll s e (m.map Prod.fst)).components e2 = s.components e2)
    ∧ (∀ p, p ∈ m → (removeAll s e (m.map Prod.fst)).heap p.2 = bump (s.heap p.2))
    ∧ (∀ cid2, cid2 ∉ m.map Prod.snd →
        (removeAll s e (m.map Prod.fst)).heap cid2 = s.heap cid2) := by
  induction m generalizing s with
  | nil =>
    refine ⟨h, hm, rfl, fun e2 _ => rfl, fun p hp => absurd hp (List.not_mem_nil p), fun cid2 _ => rfl⟩
  | cons p rest ih =>
    obtain ⟨ct0, cid0⟩ := p
    simp only [List.map_cons, List.nodup_cons] at hvals
    have hl0 : alookup ((ct0, cid0) :: rest) ct0 = some cid0 := by
      simp [alookup]
    have hrc := remove_component_eq hm hl0
    have hfold : removeAll s e (((ct0, cid0) :: rest).map Prod.fst)
        = removeAll ((s.remove_component e ct0).1) e (rest.map Prod.fst) := by
      simp [removeAll]
    have haer : aerase ((ct0, cid0) :: rest) ct0 = rest := by
      simp [aerase]
    have hs1c : ((s.remove_component e ct0).1).components e = some rest := by
      rw [hrc]
      show fupd s.components e (some (aerase ((ct0, cid0) :: rest) ct0)) e = _
      rw [fupd_same, haer]
    have hs1e : ((s.remove_component e ct0).1).entities = s.entities := by
      rw [hrc]
    have hs1comp : ∀ e2, e2 ≠ e →
        ((s.remove_component e ct0).1).components e2 = s.components e2 := by
      intro e2 he2
      rw [hrc]
      show fupd s.components e (some (aerase ((ct0, cid0) :: rest) ct0)) e2 = _
      rw [fupd_ne _ _ he2]
    have hs1heap0 : ((s.remove_component e ct0).1).heap cid0 = bump (s.heap cid0) := by
      rw [hrc]
      show fupd s.heap cid0 (bump (s.heap cid0)) cid0 = _
      rw [fupd_same]
    have hs1heapne : ∀ cid2, cid2 ≠ cid0 →
        ((s.remove_component e ct0).1).heap cid2 = s.heap cid2 := by
      intro cid2 hne
      rw [hrc]
      show fupd s.heap cid0 (bump (s.heap cid0)) cid2 = _
      rw [fupd_ne _ _ hne]
    have hwf1 : WF ((s.remove_component e ct0).1) := wf_remove h e ct0
    obtain ⟨ihWF, ihcomp, ihent, ihcomp2, ihheap, ihheapout⟩ :=
      ih hwf1 hs1c hvals.2
    rw [hfold]
    refine ⟨ihWF, ihcomp, ?_, ?_, ?_, ?_⟩
    · rw [ihent, hs1e]
    · intro e2 he2
      rw [ihcomp2 e2 he2, hs1comp e2 he2]
    · intro p hp
      rcases List.mem_cons.1 hp with h2 | h2
      · subst h2
        rw [ihheapout cid0 hvals.1, hs1heap0]
      · have hne : p.2 ≠ cid0 := by
          intro h3
          exact hvals.1 (h3 ▸ (List.mem_map.2 ⟨p, h2, rfl⟩))
        rw [ihheap p h2, hs1heapne p.2 hne]
    · intro cid2 hcid2
      simp only [List.map_cons, List.mem_cons, not_or] at hcid2
      rw [ihheapout cid2 hcid2.2, hs1heapne cid2 hcid2.1]

theorem destroy_entity_missing (hc : s.entities.contains e = false) :
    s.destroy_entity e = s := by
  unfold destroy_entity
  rw [hc]
  simp

theorem destroy_entity_eq (hc : s.entities.contains e = true)
    (hm : s.components e = some m) :
    s.destroy_entity e =
      { removeAll s e (m.map Prod.fst) with
        entities := (removeAll s e (m.map Prod.fst)).entities.erase e,
        components := fupd (removeAll s e (m.map Prod.fst)).components e none } := by
  unfold destroy_entity
  rw [if_pos hc, hm]

theorem wf_destroy (h : WF s) (e : Nat) : WF (s.destroy_entity e) := by
  cases hc : s.entities.contains e with
  | false =>
    rw [destroy_entity_missing hc]
    exact h
  | true =>
    obtain ⟨m, hm⟩ : ∃ m, s.components e = some m := by
      have h2 := (h.1 e).1 hc
      cases h3 : s.components e with
      | none =>
        rw [h3] at h2
        cases h2
      | some m => exact ⟨m, rfl⟩
    have hvals := vals_nodup h hm
    obtain ⟨hWF1, hcomp1, hent1, hcomp2, hheap, hheapout⟩ := removeAll_spec h hm hvals
    obtain ⟨hEnt1, hKeys1, hTy1, hIdx1, hNd1, hInv1⟩ := hWF1
    have hde := destroy_entity_eq hc hm
    have hce : (s.destroy_entity e).components
        = fupd (removeAll s e (m.map Prod.fst)).components e none := by
      rw [hde]
    have hee : (s.destroy_entity e).entities
        = (removeAll s e (m.map Prod.fst)).entities.erase e := by
      rw [hde]
    have hie : (s.destroy_entity e).component_index
        = (removeAll s e (m.map Prod.fst)).component_index := by
      rw [hde]
    have hhe : (s.destroy_entity e).heap = (removeAll s e (m.map Prod.fst)).heap := by
      rw [hde]
    have hnotmem : e ∉ (removeAll s e (m.map Prod.fst)).entities.erase e := by
      intro hmem
      exact ((List.Nodup.mem_erase_iff hNd1).1 hmem).1 rfl
    have hhas : ∀ e2 ct2, (s.destroy_entity e).has_component e2 ct2
        = if e2 = e then none
          else (removeAll s e (m.map Prod.fst)).has_component e2 ct2 := by
      intro e2 ct2
      by_cases he2 : e2 = e
      · subst he2
        simp [Store.has_component, hce, fupd]
      · simp [Store.has_component, hce, fupd, he2]
    refine ⟨?_, ?_, ?_, ?_, ?_, ?_⟩
    · intro e2
      rw [hee, hce]
      by_cases he2 : e2 = e
      · subst he2
        rw [fupd_same]
        constructor
        · intro h2
          exact absurd ((contains_iff _ _).1 h2) hnotmem
        · intro h2
          cases h2
      · rw [fupd_ne _ _ he2]
        rw [contains_iff]
        rw [List.Nodup.mem_erase_iff hNd1]
        rw [← hEnt1 e2, contains_iff]
        constructor
        · exact fun h2 => h2.2
        · exact fun h2 => ⟨he2, h2⟩
    · intro e2 m2 hm2
      rw [hce] at hm2
      by_cases he2 : e2 = e
      · subst he2
        rw [fupd_same] at hm2
        cases hm2
      · rw [fupd_ne _ _ he2] at hm2
        exact hKeys1 e2 m2 hm2
    · intro e2 m2 ct2 cid2 hm2 hl2
      rw [hce] at hm2
      rw [hhe]
      by_cases he2 : e2 = e
      · subst he2
        rw [fupd_same] at hm2
        cases hm2
      · rw [fupd_ne _ _ he2] at hm2
        exact hTy1 e2 m2 ct2 cid2 hm2 hl2
    · intro ct2
      rw [hie]
      exact hIdx1 ct2
    · unfold EntsNodup
      rw [hee]
      exact List.Nodup.erase e hNd1
    · intro ct2 e2
      rw [hhas e2 ct2, hie]
      by_cases he2 : e2 = e
      · subst he2
        rw [if_pos rfl]
        have h1 : e2 ∉ (removeAll s e2 (m.map Prod.fst)).component_index ct2 := by
          intro h2
          have h3 := (hInv1 ct2 e2).1 h2
          rw [Store.has_component, hcomp1] at h3
          cases h3
        constructor
        · intro h2
          exact absurd h2 h1
        · intro h2
          cases h2
      · rw [if_neg he2]
        exact hInv1 ct2 e2

end Store

/-! ### Well-formedness along safe traces -/

theorem wf_runOps {s : Store} {ops : List Op} (h : WF s)
    (hsafe : safeTrace s ops = true) : WF (runOps s ops) := by
  induction ops generalizing s with
  | nil => exact h
  | cons op rest ih =>
    cases op with
    | create e =>
      simp only [safeTrace, Bool.and_eq_true, Bool.not_eq_true'] at hsafe
      exact ih (Store.wf_create h hsafe.1) hsafe.2
    | add e cid =>
      simp only [safeTrace, Bool.true_and] at hsafe
      exact ih (Store.wf_add h e cid) hsafe
    | remove e ct =>
      simp only [safeTrace, Bool.true_and] at hsafe
      exact ih (Store.wf_remove h e ct) hsafe
    | destroy e =>
      simp only [safeTrace, Bool.true_and] at hsafe
      exact ih (Store.wf_destroy h e) hsafe

/-! ### A detailed specification of one `add_component` call -/

namespace Store

variable {s : Store} {e cid : Nat} {m : List (Nat × Nat)} {c : CompObj}

/-- What one `add_component` call does when the entity exists and the
component being added is not the one currently filed under its type:
the new component is filed under `type(component)` (others untouched), its
`entity` back-reference is set, the previously-filed component of that type
(if any) is torn down exactly once, and no other heap cell is touched. -/
theorem add_component_spec (hcid : s.heap cid = some c)
    (hm : s.components e = some m) (hnd : (m.map Prod.fst).Nodup)
    (hnot : alookup m c.cty ≠ some cid) :
    ∃ m2, (s.add_component e cid).components e = some m2
      ∧ (m2.map Prod.fst).Nodup
      ∧ alookup m2 c.cty = some cid
      ∧ (∀ ct2, ct2 ≠ c.cty → alookup m2 ct2 = alookup m ct2)
      ∧ (s.add_component e cid).heap cid = some { c with owner := some e }
      ∧ (∀ cid0, alookup m c.cty = some cid0 →
          (s.add_component e cid).heap cid0 = bump (s.heap cid0))
      ∧ (∀ cid2, cid2 ≠ cid → alookup m c.cty ≠ some cid2 →
          (s.add_component e cid).heap cid2 = s.heap cid2)
      ∧ (s.add_component e cid).entities = s.entities := by
  by_cases hmem : amem m c.cty
  · -- the entity already holds a component of this type: it is removed
    -- (and destroyed) first
    obtain ⟨cid0, hcid0⟩ : ∃ cid0, alookup m c.cty = some cid0 := by
      revert hmem
      unfold amem
      cases alookup m c.cty with
      | none => simp
      | some x => exact fun _ => ⟨x, rfl⟩
    have hcid0ne : cid0 ≠ cid := by
      intro h2
      exact hnot (h2 ▸ hcid0)
    have hrepl := add_component_replace hcid hm hmem hnd
    have hrc := remove_component_eq hm hcid0
    have hs1c : ((s.remove_component e c.cty).1).components e
        = some (aerase m c.cty) := by
      rw [hrc]
      simp
    have hs1heap : ∀ cid2, cid2 ≠ cid0 →
        ((s.remove_component e c.cty).1).heap cid2 = s.heap cid2 := by
      intro cid2 h2
      rw [hrc]
      show fupd s.heap cid0 (bump (s.heap cid0)) cid2 = _
      rw [fupd_ne _ _ h2]
    have hs1heap0 : ((s.remove_component e c.cty).1).heap cid0
        = bump (s.heap cid0) := by
      rw [hrc]
      show fupd s.heap cid0 (bump (s.heap cid0)) cid0 = _
      rw [fupd_same]
    have hs1cid : ((s.remove_component e c.cty).1).heap cid = some c := by
      rw [hs1heap cid (fun h2 => hcid0ne h2.symm)]
      exact hcid
    have hs1mem : amem (aerase m c.cty) c.cty = false := by
      unfold amem
      rw [alookup_aerase_self m c.cty hnd]
      rfl
    have hfr := add_component_fresh hs1cid hs1c hs1mem
    rw [hrepl, hfr]
    refine ⟨aset (aerase m c.cty) c.cty cid, ?_, ?_, ?_, ?_, ?_, ?_, ?_, ?_⟩
    · show fupd ((s.remove_component e c.cty).1).components e
        (some (aset (aerase m c.cty) c.cty cid)) e = _
      rw [fupd_same]
    · exact keys_aset_nodup _ _ _ (keys_aerase_nodup m c.cty hnd)
    · exact alookup_aset_self _ _ _
    · intro ct2 h2
      rw [alookup_aset_ne _ _ h2, alookup_aerase_ne _ h2]
    · show fupd ((s.remove_component e c.cty).1).heap cid
        (setOwner e (((s.remove_component e c.cty).1).heap cid)) cid = _
      rw [fupd_same, hs1cid]
      rfl
    · intro cid0b hcid0b
      rw [hcid0] at hcid0b
      cases hcid0b
      show fupd ((s.remove_component e c.cty).1).heap cid
        (setOwner e (((s.remove_component e c.cty).1).heap cid)) cid0 = _
      rw [fupd_ne _ _ hcid0ne, hs1heap0]
    · intro cid2 h2 h3
      have h4 : cid2 ≠ cid0 := by
        intro h5
        exact h3 (h5 ▸ hcid0)
      show fupd ((s.remove_component e c.cty).1).heap cid
        (setOwner e (((s.remove_component e c.cty).1).heap cid)) cid2 = _
      rw [fupd_ne _ _ h2, hs1heap cid2 h4]
    · show ((s.remove_component e c.cty).1).entities = s.entities
      rw [hrc]
  · -- no component of this type yet
    have hmem2 : amem m c.cty = false := by simpa using hmem
    have hfr := add_component_fresh hcid hm hmem2
    have hnone : alookup m c.cty = none := by
      revert hmem2
      unfold amem
      cases alookup m c.cty with
      | none => intro _; rfl
      | some x => intro h2; cases h2
    rw [hfr]
    refine ⟨aset m c.cty cid, ?_, ?_, ?_, ?_, ?_, ?_, ?_, rfl⟩
    · show fupd s.components e (some (aset m c.cty cid)) e = _
      rw [fupd_same]
    · exact keys_aset_nodup _ _ _ hnd
    · exact alookup_aset_self _ _ _
    · intro ct2 h2
      rw [alookup_aset_ne _ _ h2]
    · show fupd s.heap cid (setOwner e (s.heap cid)) cid = _
      rw [fupd_same, hcid]
      rfl
    · intro cid0 hcid0
      rw [hnone] at hcid0
      cases hcid0
    · intro cid2 h2 _
      show fupd s.heap cid (setOwner e (s.heap cid)) cid2 = _
      rw [fupd_ne _ _ h2]

end Store

/-! ### Claim C1 -/

/-- Claim C1: for every component type T and every entity e, e's id is in
the type index for T iff `has_component(e, T)` is true, and this holds
after any sequence of add_component, remove_component and destroy_entity
operations starting from an empty store (entities being created with fresh
ids along the way). -/
theorem C1_index_consistency (heapL : List (Nat × CompObj)) (ops : List Op)
    (hsafe : safeTrace (mkInit heapL) ops = true) :
    Inv (runOps (mkInit heapL) ops) :=
  (wf_runOps (wf_mkInit heapL) hsafe).2.2.2.2.2

/-- Concrete instance of C1: two components of the same type and one of
another type, with an add/replace/remove/destroy history. -/
theorem C1_index_consistency_witness :
    safeTrace (mkInit [(1, ⟨5, none, 0⟩), (2, ⟨5, none, 0⟩), (3, ⟨7, none, 0⟩)])
      [Op.create 0, Op.create 4, Op.add 0 1, Op.add 0 3, Op.add 0 2,
       Op.remove 0 7, Op.add 4 3, Op.destroy 0] = true
    ∧ Inv (runOps (mkInit [(1, ⟨5, none, 0⟩), (2, ⟨5, none, 0⟩), (3, ⟨7, none, 0⟩)])
      [Op.create 0, Op.create 4, Op.add 0 1, Op.add 0 3, Op.add 0 2,
       Op.remove 0 7, Op.add 4 3, Op.destroy 0]) :=
  ⟨by decide, C1_index_consistency _ _ (by decide)⟩

/-! ### Claim C2 -/

/-- Claim C2: for an existing entity e and two distinct component objects
c1, c2 of the same type T (c1 not being the component already filed for e
under T): after `add_component(e, c1)` then `add_component(e, c2)`,
`get_component(e, T)` returns c2, and c1's teardown hook `destroy()` was
invoked exactly once — its heap cell ends with its invocation count raised
by exactly one (and its owner back-reference set to e by the first add). -/
theorem C2_at_most_one_per_type (s : Store) (e T c1 c2 : Nat)
    (o1 o2 : CompObj) (m : List (Nat × Nat))
    (hm : s.components e = some m)
    (hnd : (m.map Prod.fst).Nodup)
    (h1 : s.heap c1 = some o1) (hty1 : o1.cty = T)
    (h2 : s.heap c2 = some o2) (hty2 : o2.cty = T)
    (hne : c1 ≠ c2)
    (hnotc1 : alookup m T ≠ some c1) :
    ((s.add_component e c1).add_component e c2).get_component e T = some c2
    ∧ ((s.add_component e c1).add_component e c2).heap c1
      = some { o1 with owner := some e, destroyCount := o1.destroyCount + 1 } := by
  obtain ⟨m2, hm2, hnd2, hl2, _, hheapc1, hbump2, huntouched2, _⟩ :=
    Store.add_component_spec h1 hm hnd (by rw [hty1]; exact hnotc1)
  rw [hty1] at hl2
  obtain ⟨o2b, ho2b, hcty2b⟩ :
      ∃ o2b, (s.add_component e c1).heap c2 = some o2b ∧ o2b.cty = T := by
    by_cases hc2m : alookup m T = some c2
    · have h3 := hbump2 c2 (by rw [hty1]; exact hc2m)
      rw [h2] at h3
      exact ⟨{ o2 with destroyCount := o2.destroyCount + 1 }, h3, hty2⟩
    · have h3 := huntouched2 c2 (fun h4 => hne h4.symm)
        (by rw [hty1]; exact hc2m)
      rw [h2] at h3
      exact ⟨o2, h3, hty2⟩
  obtain ⟨m3, hm3, _, hl3, _, _, hbump3, _, _⟩ :=
    Store.add_component_spec ho2b hm2 hnd2
      (by rw [hcty2b, hl2]; intro h3; cases h3; exact hne rfl)
  constructor
  · rw [Store.get_component, hm3]
    rw [hcty2b] at hl3
    exact hl3
  · have h5 := hbump3 c1 (by rw [hcty2b]; exact hl2)
    rw [hheapc1] at h5
    exact h5

/-- Probe store for the C2 instance: one entity (id 0) with no components
yet, and two unattached component objects of type 5 in the heap. -/
def c2probe : Store :=
  { entities := [0],
    components := fun n => if n = 0 then some [] else none,
    component_index := fun _ => [],
    heap := fun n =>
      if n = 1 then some ⟨5, none, 0⟩
      else if n = 2 then some ⟨5, none, 0⟩ else none }

/-- Concrete instance of C2: entity 0, type 5, component objects 1 and 2. -/
theorem C2_at_most_one_per_type_witness :
    ((c2probe.add_component 0 1).add_component 0 2).get_component 0 5 = some 2
    ∧ ((c2probe.add_component 0 1).add_component 0 2).heap 1
      = some ⟨5, some 0, 1⟩ :=
  C2_at_most_one_per_type c2probe 0 5 1 2 ⟨5, none, 0⟩ ⟨5, none, 0⟩ []
    rfl (by simp) rfl rfl rfl rfl (by decide) (by decide)

/-! ### Claim C3 -/

/-- Claim C3: destroying an entity that holds exactly the components
listed in its map invokes each of their teardown hooks exactly once and no
other hook, removes the entity's id from every type index, and a second
destroy on the same id is a no-op, not an error. -/
theorem C3_destroy_cascades (heapL : List (Nat × CompObj)) (ops : List Op)
    (e : Nat) (m : List (Nat × Nat))
    (hsafe : safeTrace (mkInit heapL) ops = true)
    (hm : (runOps (mkInit heapL) ops).components e = some m) :
    (∀ p, p ∈ m →
      ((runOps (mkInit heapL) ops).destroy_entity e).heap p.2
        = bump ((runOps (mkInit heapL) ops).heap p.2))
    ∧ (∀ cid2, cid2 ∉ m.map Prod.snd →
        ((runOps (mkInit heapL) ops).destroy_entity e).heap cid2
          = (runOps (mkInit heapL) ops).heap cid2)
    ∧ (∀ ct, e ∉ ((runOps (mkInit heapL) ops).destroy_entity e).component_index ct)
    ∧ (((runOps (mkInit heapL) ops).destroy_entity e).destroy_entity e
        = (runOps (mkInit heapL) ops).destroy_entity e)
    ∧ ((runOps (mkInit heapL) ops).destroy_entity e).entities.contains e = false := by
  have hWF := wf_runOps (wf_mkInit heapL) hsafe
  have hc : (runOps (mkInit heapL) ops).entities.contains e = true := by
    rw [hWF.1 e, hm]
    rfl
  have hvals := Store.vals_nodup hWF hm
  obtain ⟨hWF1, hcomp1, _, _, hheap, hheapout⟩ := Store.removeAll_spec hWF hm hvals
  have hde := Store.destroy_entity_eq hc hm
  have hhe : ((runOps (mkInit heapL) ops).destroy_entity e).heap
      = (Store.removeAll (runOps (mkInit heapL) ops) e (m.map Prod.fst)).heap := by
    rw [hde]
  have hie : ((runOps (mkInit heapL) ops).destroy_entity e).component_index
      = (Store.removeAll (runOps (mkInit heapL) ops) e (m.map Prod.fst)).component_index := by
    rw [hde]
  have hee : ((runOps (mkInit heapL) ops).destroy_entity e).entities
      = (Store.removeAll (runOps (mkInit heapL) ops) e (m.map Prod.fst)).entities.erase e := by
    rw [hde]
  have hncont : ((runOps (mkInit heapL) ops).destroy_entity e).entities.contains e
      = false := by
    rw [hee]
    cases h2 : ((Store.removeAll (runOps (mkInit heapL) ops) e
        (m.map Prod.fst)).entities.erase e).contains e with
    | false => rfl
    | true =>
      have h3 := (contains_iff _ _).1 h2
      have h4 := (List.Nodup.mem_erase_iff hWF1.2.2.2.2.1).1 h3
      exact absurd rfl h4.1
  refine ⟨?_, ?_, ?_, ?_, hncont⟩
  · intro p hp
    rw [hhe]
    exact hheap p hp
  · intro cid2 hcid2
    rw [hhe]
    exact hheapout cid2 hcid2
  · intro ct hmem
    rw [hie] at hmem
    have h3 := (hWF1.2.2.2.2.2 ct e).1 hmem
    rw [Store.has_component, hcomp1] at h3
    cases h3
  · exact Store.destroy_entity_missing hncont

/-- Concrete instance of C3: entity 0 with two components (types 5 and 7),
destroyed, then destroyed again. -/
theorem C3_destroy_cascades_witness :
    safeTrace (mkInit [(1, ⟨5, none, 0⟩), (3, ⟨7, none, 0⟩)])
      [Op.create 0, Op.add 0 1, Op.add 0 3] = true
    ∧ (runOps (mkInit [(1, ⟨5, none, 0⟩), (3, ⟨7, none, 0⟩)])
        [Op.create 0, Op.add 0 1, Op.add 0 3]).components 0 = some [(5, 1), (7, 3)]
    ∧ ((runOps (mkInit [(1, ⟨5, none, 0⟩), (3, ⟨7, none, 0⟩)])
        [Op.create 0, Op.add 0 1, Op.add 0 3]).destroy_entity 0).heap 1
      = bump ((runOps (mkInit [(1, ⟨5, none, 0⟩), (3, ⟨7, none, 0⟩)])
        [Op.create 0, Op.add 0 1, Op.add 0 3]).heap 1)
    ∧ 0 ∉ ((runOps (mkInit [(1, ⟨5, none, 0⟩), (3, ⟨7, none, 0⟩)])
        [Op.create 0, Op.add 0 1, Op.add 0 3]).destroy_entity 0).component_index 5
    ∧ (((runOps (mkInit [(1, ⟨5, none, 0⟩), (3, ⟨7, none, 0⟩)])
        [Op.create 0, Op.add 0 1, Op.add 0 3]).destroy_entity 0).destroy_entity 0
      = (runOps (mkInit [(1, ⟨5, none, 0⟩), (3, ⟨7, none, 0⟩)])
        [Op.create 0, Op.add 0 1, Op.add 0 3]).destroy_entity 0) :=
  ⟨by decide, by decide,
   (C3_destroy_cascades _ _ 0 [(5, 1), (7, 3)] (by decide) (by decide)).1 (5, 1)
     (by decide),
   (C3_destroy_cascades _ _ 0 [(5, 1), (7, 3)] (by decide) (by decide)).2.2.1 5,
   (C3_destroy_cascades _ _ 0 [(5, 1), (7, 3)] (by decide) (by decide)).2.2.2.1⟩

/-! ### Claim C4 -/

/-- Claim C4: in any store reached by a safe operation sequence, the
multi-type query with types (A, B) contains exactly the entities for which
`has_component(_, A)` and `has_component(_, B)` are both true (order
irrelevant, so stated as membership), and the query with zero types
contains exactly the entities of the store. -/
theorem C4_query_correctness (heapL : List (Nat × CompObj)) (ops : List Op)
    (A B : Nat) (hsafe : safeTrace (mkInit heapL) ops = true) :
    (∀ e, e ∈ (runOps (mkInit heapL) ops).get_entities_with_components [A, B]
      ↔ ((runOps (mkInit heapL) ops).has_component e A = some true
        ∧ (runOps (mkInit heapL) ops).has_component e B = some true))
    ∧ (∀ e, e ∈ (runOps (mkInit heapL) ops).get_entities_with_components []
      ↔ e ∈ (runOps (mkInit heapL) ops).entities) := by
  have hWF := wf_runOps (wf_mkInit heapL) hsafe
  have hEnt := hWF.1
  have hInv := hWF.2.2.2.2.2
  constructor
  · intro e
    have hq : (runOps (mkInit heapL) ops).get_entities_with_components [A, B]
        = (((runOps (mkInit heapL) ops).component_index A).filter
            (fun e2 => ((runOps (mkInit heapL) ops).component_index B).contains e2)).filter
            (fun e2 => (runOps (mkInit heapL) ops).entities.contains e2) := by
      simp [Store.get_entities_with_components]
    rw [hq, List.mem_filter, List.mem_filter]
    constructor
    · rintro ⟨⟨hA, hB⟩, _⟩
      exact ⟨(hInv A e).1 hA, (hInv B e).1 ((contains_iff _ _).1 hB)⟩
    · rintro ⟨hA, hB⟩
      have hmemA := (hInv A e).2 hA
      have hmemB := (hInv B e).2 hB
      have hsome : ((runOps (mkInit heapL) ops).components e).isSome = true := by
        cases hcomp : (runOps (mkInit heapL) ops).components e with
        | none =>
          rw [Store.has_component, hcomp] at hA
          cases hA
        | some m2 => rfl
      exact ⟨⟨hmemA, (contains_iff _ _).2 hmemB⟩, (hEnt e).2 hsome⟩
  · intro e
    exact Iff.rfl

/-- Concrete instance of C4: entity 0 has both types 5 and 7, entity 3
has neither. -/
theorem C4_query_correctness_witness :
    safeTrace (mkInit [(1, ⟨5, none, 0⟩), (2, ⟨7, none, 0⟩)])
      [Op.create 0, Op.add 0 1, Op.add 0 2, Op.create 3] = true
    ∧ (0 ∈ (runOps (mkInit [(1, ⟨5, none, 0⟩), (2, ⟨7, none, 0⟩)])
        [Op.create 0, Op.add 0 1, Op.add 0 2, Op.create 3]).get_entities_with_components [5, 7]
      ↔ ((runOps (mkInit [(1, ⟨5, none, 0⟩), (2, ⟨7, none, 0⟩)])
        [Op.create 0, Op.add 0 1, Op.add 0 2, Op.create 3]).has_component 0 5 = some true
        ∧ (runOps (mkInit [(1, ⟨5, none, 0⟩), (2, ⟨7, none, 0⟩)])
        [Op.create 0, Op.add 0 1, Op.add 0 2, Op.create 3]).has_component 0 7 = some true))
    ∧ (3 ∈ (runOps (mkInit [(1, ⟨5, none, 0⟩), (2, ⟨7, none, 0⟩)])
        [Op.create 0, Op.add 0 1, Op.add 0 2, Op.create 3]).get_entities_with_components []
      ↔ 3 ∈ (runOps (mkInit [(1, ⟨5, none, 0⟩), (2, ⟨7, none, 0⟩)])
        [Op.create 0, Op.add 0 1, Op.add 0 2, Op.create 3]).entities) :=
  ⟨by decide,
   (C4_query_correctness _ _ 5 7 (by decide)).1 0,
   (C4_query_correctness _ _ 5 7 (by decide)).2 3⟩

/-! ### Claim C5 -/

/-- Counterexample to claim C5 as stated: `create_entity` with an id that
already names an existing entity does not fail — no `DuplicateIdError`
exists anywhere in the source and no exception is raised.  Starting from a
store where entity 0 exists and holds a type-5 component, `create_entity(0)`
returns normally: entity 0 is still there, its component map has been
silently reset to empty, and the type-5 index still (now inconsistently)
lists id 0. -/
theorem C5_create_duplicate_counterexample :
    ((runOps (mkInit [(1, ⟨5, none, 0⟩)]) [Op.create 0, Op.add 0 1]).create_entity 0).entities
      = [0]
    ∧ ((runOps (mkInit [(1, ⟨5, none, 0⟩)]) [Op.create 0, Op.add 0 1]).create_entity 0).components 0
      = some []
    ∧ ((runOps (mkInit [(1, ⟨5, none, 0⟩)]) [Op.create 0, Op.add 0 1]).create_entity 0).component_index 5
      = [0] := by
  refine ⟨by decide, by decide, by decide⟩

/-- Claim C5 amended: `create_entity` with an id that already exists does
not raise anything; it silently overwrites the stored `Entity` object and
resets that entity's component map to empty, leaving the entity list, the
type indexes (now possibly stale) and the heap untouched.  (The branch
that allocates a fresh uuid4 id when none is supplied is randomised and
outside this deterministic model.) -/
theorem C5_create_duplicate_overwrites (s : Store) (e : Nat)
    (h : s.entities.contains e = true) :
    (s.create_entity e).entities = s.entities
    ∧ (s.create_entity e).components e = some []
    ∧ (∀ e2, e2 ≠ e → (s.create_entity e).components e2 = s.components e2)
    ∧ (s.create_entity e).component_index = s.component_index
    ∧ (s.create_entity e).heap = s.heap := by
  refine ⟨?_, ?_, ?_, rfl, rfl⟩
  · show (if s.entities.contains e then s.entities else s.entities ++ [e]) = s.entities
    rw [h]
    simp
  · show fupd s.components e (some []) e = some []
    rw [fupd_same]
  · intro e2 he2
    show fupd s.components e (some []) e2 = s.components e2
    rw [fupd_ne _ _ he2]

/-- Concrete instance of the amended C5. -/
theorem C5_create_duplicate_overwrites_witness :
    (runOps (mkInit [(1, ⟨5, none, 0⟩)]) [Op.create 0, Op.add 0 1]).entities.contains 0 = true
    ∧ ((runOps (mkInit [(1, ⟨5, none, 0⟩)]) [Op.create 0, Op.add 0 1]).create_entity 0).components 0
      = some [] :=
  ⟨by decide,
   (C5_create_duplicate_overwrites
     (runOps (mkInit [(1, ⟨5, none, 0⟩)]) [Op.create 0, Op.add 0 1]) 0 (by decide)).2.1⟩

/-! ### Claim C9 -/

theorem remove_component_owner (s : Store) (e ct cid2 : Nat) (d : CompObj)
    (hd : s.heap cid2 = some d) :
    ∃ d2, ((s.remove_component e ct).1).heap cid2 = some d2
      ∧ d2.owner = d.owner ∧ d2.cty = d.cty := by
  cases hm : s.components e with
  | none =>
    rw [Store.remove_component_missing_entity hm]
    exact ⟨d, hd, rfl, rfl⟩
  | some m =>
    cases hc : alookup m ct with
    | none =>
      rw [Store.remove_component_missing_comp hm hc]
      exact ⟨d, hd, rfl, rfl⟩
    | some cid0 =>
      have hhe : ((s.remove_component e ct).1).heap
          = fupd s.heap cid0 (bump (s.heap cid0)) := by
        rw [Store.remove_component_eq hm hc]
      rw [hhe]
      by_cases hcc : cid2 = cid0
      · subst hcc
        rw [fupd_same, hd]
        exact ⟨{ d with destroyCount := d.destroyCount + 1 }, rfl, rfl, rfl⟩
      · rw [fupd_ne _ _ hcc]
        exact ⟨d, hd, rfl, rfl⟩

theorem removeAll_owner (s : Store) (e : Nat) (cts : List Nat) (cid2 : Nat)
    (d : CompObj) (hd : s.heap cid2 = some d) :
    ∃ d2, (Store.removeAll s e cts).heap cid2 = some d2 ∧ d2.owner = d.owner := by
  induction cts generalizing s d with
  | nil => exact ⟨d, hd, rfl⟩
  | cons ct rest ih =>
    obtain ⟨d2, hd2, howner, _⟩ := remove_component_owner s e ct cid2 d hd
    obtain ⟨d3, hd3, howner3⟩ := ih ((s.remove_component e ct).1) d2 hd2
    exact ⟨d3, hd3, howner3.trans howner⟩

theorem destroy_entity_owner (s : Store) (e cid2 : Nat) (d : CompObj)
    (hd : s.heap cid2 = some d) :
    ∃ d2, (s.destroy_entity e).heap cid2 = some d2 ∧ d2.owner = d.owner := by
  cases hc : s.entities.contains e with
  | false =>
    rw [Store.destroy_entity_missing hc]
    exact ⟨d, hd, rfl⟩
  | true =>
    cases hm : s.components e with
    | none =>
      have hhe : (s.destroy_entity e).heap = s.heap := by
        unfold Store.destroy_entity
        rw [if_pos hc, hm]
        rfl
      rw [hhe]
      exact ⟨d, hd, rfl⟩
    | some m =>
      have hhe : (s.destroy_entity e).heap
          = (Store.removeAll s e (m.map Prod.fst)).heap := by
        rw [Store.destroy_entity_eq hc hm]
      rw [hhe]
      exact removeAll_owner s e (m.map Prod.fst) cid2 d hd

/-- Counterexample to claim C9 as stated: the owner back-reference is not
cleared at removal.  Create entity 0, attach component object 1 (type 5),
then remove it: the component's heap cell still records owner 0 (and one
teardown invocation); the source never assigns `component.entity = None`. -/
theorem C9_owner_not_cleared_counterexample :
    (runOps (mkInit [(1, ⟨5, none, 0⟩)])
      [Op.create 0, Op.add 0 1, Op.remove 0 5]).heap 1 = some ⟨5, some 0, 1⟩
    ∧ (some 0 : Option Nat) ≠ none := by
  refine ⟨by decide, by decide⟩

/-- Claim C9 amended: `add_component` sets the component's owner
back-reference to the entity; `remove_component` and `destroy_entity`
invoke the teardown hook but never clear the back-reference — every heap
cell keeps its owner unchanged through removal and destruction. -/
theorem C9_owner_backref (s : Store) (e cid : Nat) (c : CompObj)
    (m : List (Nat × Nat))
    (hm : s.components e = some m) (hnd : (m.map Prod.fst).Nodup)
    (hc : s.heap cid = some c) (hnot : alookup m c.cty ≠ some cid) :
    (s.add_component e cid).heap cid = some { c with owner := some e }
    ∧ (∀ e2 ct2 cid2 d, s.heap cid2 = some d →
        ∃ d2, ((s.remove_component e2 ct2).1).heap cid2 = some d2
          ∧ d2.owner = d.owner)
    ∧ (∀ e2 cid2 d, s.heap cid2 = some d →
        ∃ d2, (s.destroy_entity e2).heap cid2 = some d2 ∧ d2.owner = d.owner) := by
  obtain ⟨m2, _, _, _, _, hheap, _, _, _⟩ := Store.add_component_spec hc hm hnd hnot
  refine ⟨hheap, ?_, ?_⟩
  · intro e2 ct2 cid2 d hd
    obtain ⟨d2, hd2, howner, _⟩ := remove_component_owner s e2 ct2 cid2 d hd
    exact ⟨d2, hd2, howner⟩
  · intro e2 cid2 d hd
    exact destroy_entity_owner s e2 cid2 d hd

/-- Concrete instance of the amended C9. -/
theorem C9_owner_backref_witness :
    (c2probe.add_component 0 1).heap 1 = some ⟨5, some 0, 0⟩
    ∧ (∃ d2, ((c2probe.remove_component 0 5).1).heap 1 = some d2
        ∧ d2.owner = none) :=
  ⟨(C9_owner_backref c2probe 0 1 ⟨5, none, 0⟩ [] rfl (by simp) rfl (by decide)).1,
   (C9_owner_backref c2probe 0 1 ⟨5, none, 0⟩ [] rfl (by simp) rfl (by decide)).2.1
     0 5 1 ⟨5, none, 0⟩ rfl⟩

/-! ### The scheduler: `SystemManager` from src/engine/ecs/system.py

A registered system is its Python class (a natural tag — `systems_by_type`
keys on `type(system)`), its priority, its `is_active` flag and its
`update` behavior, a function over an abstract world state σ given the
tick's `delta_time` of type δ.  `add_system` removes a previously
registered system of the same class, appends, and re-sorts the whole list
with `self.systems.sort(key=lambda s: s.priority)` — Python's `list.sort`
is guaranteed stable, modelled by a stable insertion sort. -/

structure Sys (δ σ : Type) where
  tag : Nat
  priority : Int
  is_active : Bool
  run : δ → σ → σ

/-- Stable insert: the new element goes after every element whose priority
is less than or equal to its own. -/
def insertSys {δ σ : Type} (x : Sys δ σ) : List (Sys δ σ) → List (Sys δ σ)
  | [] => [x]
  | y :: ys => if x.priority < y.priority then x :: y :: ys else y :: insertSys x ys

def sortAux {δ σ : Type} : List (Sys δ σ) → List (Sys δ σ) → List (Sys δ σ)
  | acc, [] => acc
  | acc, x :: xs => sortAux (insertSys x acc) xs

/-- Python's stable `list.sort(key=lambda s: s.priority)`. -/
def sortSystems {δ σ : Type} (l : List (Sys δ σ)) : List (Sys δ σ) :=
  sortAux [] l

/-- SystemManager.add_system: tear out a previously registered system of
the same class (`if system_type in self.systems_by_type: self.remove_system(...)`),
append the new one, and re-sort by priority. -/
def add_system {δ σ : Type} (ms : List (Sys δ σ)) (s : Sys δ σ) : List (Sys δ σ) :=
  let ms1 := if ms.any (fun s2 => s2.tag == s.tag)
    then ms.eraseP (fun s2 => s2.tag == s.tag) else ms
  sortSystems (ms1 ++ [s])

/-- SystemManager.update: invoke `update(dt)` on every system whose
`is_active` flag is set, in list order. -/
def sm_update {δ σ : Type} (ms : List (Sys δ σ)) (dt : δ) (st : σ) : σ :=
  ms.foldl (fun st2 s => if s.is_active then s.run dt st2 else st2) st

/-- Register a list of systems in order, starting from an empty manager. -/
def regAll {δ σ : Type} (rs : List (Sys δ σ)) : List (Sys δ σ) :=
  rs.foldl add_system []

/-- Sorted ascending by priority (lower priority runs first). -/
def SortedByPrio {δ σ : Type} (l : List (Sys δ σ)) : Prop :=
  List.Pairwise (fun a b => a.priority ≤ b.priority) l

theorem mem_insertSys {δ σ : Type} (x z : Sys δ σ) (l : List (Sys δ σ)) :
    z ∈ insertSys x l ↔ z = x ∨ z ∈ l := by
  induction l with
  | nil => simp [insertSys]
  | cons y ys ih =>
    unfold insertSys
    by_cases h : x.priority < y.priority
    · rw [if_pos h]
      exact List.mem_cons
    · rw [if_neg h]
      simp only [List.mem_cons, ih]
      tauto

theorem sorted_insertSys {δ σ : Type} (x : Sys δ σ) {l : List (Sys δ σ)}
    (h : SortedByPrio l) : SortedByPrio (insertSys x l) := by
  induction l with
  | nil =>
    unfold insertSys SortedByPrio
    simp
  | cons y ys ih =>
    unfold SortedByPrio at h ⊢
    rw [List.pairwise_cons] at h
    unfold insertSys
    by_cases hp : x.priority < y.priority
    · rw [if_pos hp]
      rw [List.pairwise_cons]
      constructor
      · intro z hz
        rcases List.mem_cons.1 hz with h2 | h2
        · exact le_of_lt (h2 ▸ hp)
        · exact le_trans (le_of_lt hp) (h.1 z h2)
      · rw [List.pairwise_cons]
        exact h
    · rw [if_neg hp]
      rw [List.pairwise_cons]
      constructor
      · intro z hz
        rcases (mem_insertSys x z ys).1 hz with h2 | h2
        · exact h2 ▸ (le_of_not_lt hp)
        · exact h.1 z h2
      · exact ih h.2

theorem sorted_sortAux {δ σ : Type} (l : List (Sys δ σ)) :
    ∀ acc, SortedByPrio acc → SortedByPrio (sortAux acc l) := by
  induction l with
  | nil => exact fun acc h => h
  | cons x xs ih =>
    intro acc h
    exact ih (insertSys x acc) (sorted_insertSys x h)

theorem sorted_sortSystems {δ σ : Type} (l : List (Sys δ σ)) :
    SortedByPrio (sortSystems l) :=
  sorted_sortAux l [] (by unfold SortedByPrio; simp)

theorem insertSys_append_of_le {δ σ : Type} (x : Sys δ σ) {acc : List (Sys δ σ)}
    (h : ∀ a ∈ acc, ¬ x.priority < a.priority) :
    insertSys x acc = acc ++ [x] := by
  induction acc with
  | nil => rfl
  | cons y ys ih =>
    unfold insertSys
    rw [if_neg (h y (List.mem_cons_self y ys))]
    rw [ih (fun a ha => h a (List.mem_cons_of_mem y ha))]
    rfl

theorem sortAux_of_sorted_append {δ σ : Type} (l : List (Sys δ σ)) :
    ∀ acc, SortedByPrio (acc ++ l) → sortAux acc l = acc ++ l := by
  induction l with
  | nil => intro acc _; simp [sortAux]
  | cons x xs ih =>
    intro acc h
    have hle : ∀ a ∈ acc, ¬ x.priority < a.priority := by
      intro a ha
      have h2 : a.priority ≤ x.priority := by
        unfold SortedByPrio at h
        have := List.pairwise_append.1 h
        exact this.2.2 a ha x (List.mem_cons_self x xs)
      exact not_lt_of_le h2
    unfold sortAux
    rw [insertSys_append_of_le x hle]
    have h3 : SortedByPrio ((acc ++ [x]) ++ xs) := by
      rw [List.append_assoc]
      simpa using h
    rw [ih (acc ++ [x]) h3]
    simp

theorem sortSystems_of_sorted {δ σ : Type} {l : List (Sys δ σ)}
    (h : SortedByPrio l) : sortSystems l = l :=
  sortAux_of_sorted_append l [] (by simpa using h)

theorem sortAux_append {δ σ : Type} (l1 l2 : List (Sys δ σ)) (acc : List (Sys δ σ)) :
    sortAux acc (l1 ++ l2) = sortAux (sortAux acc l1) l2 := by
  induction l1 generalizing acc with
  | nil => rfl
  | cons x xs ih =>
    show sortAux (insertSys x acc) (xs ++ l2) = sortAux (sortAux (insertSys x acc) xs) l2
    exact ih (insertSys x acc)

theorem insertSys_perm {δ σ : Type} (x : Sys δ σ) (l : List (Sys δ σ)) :
    List.Perm (insertSys x l) (x :: l) := by
  induction l with
  | nil => rfl
  | cons y ys ih =>
    unfold insertSys
    by_cases h : x.priority < y.priority
    · rw [if_pos h]
    · rw [if_neg h]
      exact (List.Perm.cons y ih).trans (List.Perm.swap x y ys)

theorem sortAux_perm {δ σ : Type} (l : List (Sys δ σ)) :
    ∀ acc, List.Perm (sortAux acc l) (acc ++ l) := by
  induction l with
  | nil => intro acc; simp [sortAux]
  | cons x xs ih =>
    intro acc
    unfold sortAux
    refine (ih (insertSys x acc)).trans ?_
    refine (List.Perm.append_right xs (insertSys_perm x acc)).trans ?_
    exact List.perm_middle.symm.trans (by simp)

theorem sortSystems_perm {δ σ : Type} (l : List (Sys δ σ)) :
    List.Perm (sortSystems l) l := by
  simpa using sortAux_perm l []

/-! Stability of the sort, characterised by filters: the systems of any
one priority appear in the sorted list exactly in their original order. -/

theorem filter_empty_of_lt {δ σ : Type} {p : Int} {l : List (Sys δ σ)}
    (hl : ∀ a ∈ l, p < a.priority) :
    l.filter (fun s => s.priority == p) = [] := by
  induction l with
  | nil => rfl
  | cons y ys ih =>
    have hy : (y.priority == p) = false := by
      rw [beq_eq_false_iff_ne]
      exact fun h2 => absurd (h2 ▸ hl y (List.mem_cons_self y ys)) (lt_irrefl p)
    rw [List.filter_cons_of_neg (by simp [hy])]
    exact ih (fun a ha => hl a (List.mem_cons_of_mem y ha))

theorem filter_insertSys_eq {δ σ : Type} {p : Int} (x : Sys δ σ)
    {acc : List (Sys δ σ)} (hs : SortedByPrio acc) (hx : x.priority = p) :
    (insertSys x acc).filter (fun s => s.priority == p)
      = acc.filter (fun s => s.priority == p) ++ [x] := by
  have hxT : (x.priority == p) = true := by
    rw [beq_iff_eq]
    exact hx
  induction acc with
  | nil =>
    unfold insertSys
    simp [hxT]
  | cons y ys ih =>
    unfold SortedByPrio at hs
    rw [List.pairwise_cons] at hs
    unfold insertSys
    by_cases hlt : x.priority < y.priority
    · rw [if_pos hlt]
      have hempty : (y :: ys).filter (fun s => s.priority == p) = [] := by
        refine filter_empty_of_lt ?_
        intro a ha
        rcases List.mem_cons.1 ha with h2 | h2
        · rw [← hx]
          exact h2 ▸ hlt
        · rw [← hx]
          exact lt_of_lt_of_le hlt (hs.1 a h2)
      rw [List.filter_cons_of_pos (by simp [hxT]), hempty]
      rfl
    · rw [if_neg hlt]
      by_cases hy : (y.priority == p) = true
      · rw [List.filter_cons_of_pos (by simp [hy]),
          List.filter_cons_of_pos (by simp [hy]), ih hs.2]
        rfl
      · rw [List.filter_cons_of_neg (by simpa using hy),
          List.filter_cons_of_neg (by simpa using hy), ih hs.2]

theorem filter_insertSys_ne {δ σ : Type} {p : Int} (x : Sys δ σ)
    (acc : List (Sys δ σ)) (hx : x.priority ≠ p) :
    (insertSys x acc).filter (fun s => s.priority == p)
      = acc.filter (fun s => s.priority == p) := by
  have hxF : (x.priority == p) = false := by
    rw [beq_eq_false_iff_ne]
    exact hx
  induction acc with
  | nil =>
    unfold insertSys
    simp [hxF]
  | cons y ys ih =>
    unfold insertSys
    by_cases hlt : x.priority < y.priority
    · rw [if_pos hlt]
      rw [List.filter_cons_of_neg (by simp [hxF])]
    · rw [if_neg hlt]
      by_cases hy : (y.priority == p) = true
      · rw [List.filter_cons_of_pos (by simp [hy]),
          List.filter_cons_of_pos (by simp [hy]), ih]
      · rw [List.filter_cons_of_neg (by simpa using hy),
          List.filter_cons_of_neg (by simpa using hy), ih]

theorem filter_sortAux {δ σ : Type} (p : Int) (l : List (Sys δ σ)) :
    ∀ acc, SortedByPrio acc →
      (sortAux acc l).filter (fun s => s.priority == p)
        = acc.filter (fun s => s.priority == p)
          ++ l.filter (fun s => s.priority == p) := by
  induction l with
  | nil =>
    intro acc _
    simp [sortAux]
  | cons x xs ih =>
    intro acc hacc
    show (sortAux (insertSys x acc) xs).filter (fun s => s.priority == p) = _
    rw [ih (insertSys x acc) (sorted_insertSys x hacc)]
    by_cases hx : x.priority = p
    · rw [filter_insertSys_eq x hacc hx,
        List.filter_cons_of_pos (by simp [beq_iff_eq, hx])]
      simp
    · rw [filter_insertSys_ne x acc hx,
        List.filter_cons_of_neg (by simp [beq_iff_eq, hx])]

theorem filter_sortSystems {δ σ : Type} (p : Int) (l : List (Sys δ σ)) :
    (sortSystems l).filter (fun s => s.priority == p)
      = l.filter (fun s => s.priority == p) := by
  have h := filter_sortAux p l [] (by unfold SortedByPrio; simp)
  simpa [sortSystems] using h

/-! Registering systems one by one (append + full re-sort each time, as the
source does) produces exactly one stable sort of the registration list. -/

theorem foldl_add_system_eq {δ σ : Type} (rs : List (Sys δ σ)) :
    ∀ m : List (Sys δ σ), SortedByPrio m →
      ((m ++ rs).map (fun s => s.tag)).Nodup →
      rs.foldl add_system m = sortSystems (m ++ rs) := by
  induction rs with
  | nil =>
    intro m hm _
    rw [List.append_nil, List.foldl_nil, sortSystems_of_sorted hm]
  | cons x xs ih =>
    intro m hm hnd
    have hnotin : x.tag ∉ m.map (fun s => s.tag) := by
      intro h2
      rw [List.map_append, List.nodup_append] at hnd
      exact hnd.2.2 h2 (by simp)
    have hany : m.any (fun s2 => s2.tag == x.tag) = false := by
      rw [List.any_eq_false]
      intro s2 hs2
      simp only [beq_iff_eq]
      intro h2
      exact hnotin (h2 ▸ List.mem_map.2 ⟨s2, hs2, rfl⟩)
    have hadd : add_system m x = sortSystems (m ++ [x]) := by
      unfold add_system
      rw [hany]
      rfl
    have hsorted1 : SortedByPrio (sortSystems (m ++ [x])) :=
      sorted_sortSystems (m ++ [x])
    have hperm : List.Perm ((sortSystems (m ++ [x]) ++ xs).map (fun s => s.tag))
        ((m ++ x :: xs).map (fun s => s.tag)) := by
      rw [List.map_append, List.map_append]
      refine (List.Perm.append_right (xs.map (fun s => s.tag))
        (List.Perm.map (fun s => s.tag) (sortSystems_perm (m ++ [x])))).trans ?_
      rw [List.map_append]
      rw [List.append_assoc]
      simp
    have hnd1 : ((sortSystems (m ++ [x]) ++ xs).map (fun s => s.tag)).Nodup :=
      hperm.symm.nodup (by simpa using hnd)
    rw [List.foldl_cons, hadd, ih (sortSystems (m ++ [x])) hsorted1 hnd1]
    have hleft : ∀ a b : List (Sys δ σ), sortSystems (a ++ b) = sortAux (sortSystems a) b := by
      intro a b
      unfold sortSystems
      exact sortAux_append a b []
    have hidem : sortSystems (sortSystems (m ++ [x])) = sortSystems (m ++ [x]) :=
      sortSystems_of_sorted (sorted_sortSystems (m ++ [x]))
    rw [hleft (sortSystems (m ++ [x])) xs, hidem, ← hleft (m ++ [x]) xs,
      List.append_assoc]
    rfl

theorem regAll_eq_sortSystems {δ σ : Type} (rs : List (Sys δ σ))
    (hnd : (rs.map (fun s => s.tag)).Nodup) :
    regAll rs = sortSystems rs := by
  have h := foldl_add_system_eq rs [] (by unfold SortedByPrio; simp)
    (by simpa using hnd)
  simpa [regAll] using h

/-- A tick over tag-logging systems appends exactly the tags of the active
systems, in list order. -/
theorem sm_update_log {δ : Type} (ms : List (Sys δ (List Nat)))
    (h : ∀ s ∈ ms, ∀ dt log, s.run dt log = log ++ [s.tag]) (dt : δ)
    (log0 : List Nat) :
    sm_update ms dt log0
      = log0 ++ (ms.filter (fun s => s.is_active)).map (fun s => s.tag) := by
  induction ms generalizing log0 with
  | nil => simp [sm_update]
  | cons s ss ih =>
    have hstep : sm_update (s :: ss) dt log0
        = sm_update ss dt (if s.is_active then s.run dt log0 else log0) := rfl
    rw [hstep]
    have hss : ∀ s2 ∈ ss, ∀ dt log, s2.run dt log = log ++ [s2.tag] :=
      fun s2 hs2 => h s2 (List.mem_cons_of_mem s hs2)
    cases ha : s.is_active with
    | true =>
      rw [if_pos rfl, h s (List.mem_cons_self s ss) dt log0, ih hss]
      rw [List.filter_cons_of_pos (by simp [ha])]
      simp
    | false =>
      rw [if_neg (by simp), ih hss]
      rw [List.filter_cons_of_neg (by simp [ha])]

/-- A system whose update appends its tag to a shared log. -/
def mkLogger (δ : Type) (t : Nat) (p : Int) (a : Bool) : Sys δ (List Nat) :=
  ⟨t, p, a, fun _ log => log ++ [t]⟩

/-- Build logging systems from (tag, priority, active) registration triples. -/
def mkLoggers (δ : Type) (triples : List (Nat × Int × Bool)) : List (Sys δ (List Nat)) :=
  triples.map (fun tr => mkLogger δ tr.1 tr.2.1 tr.2.2)

theorem mkLoggers_tags (δ : Type) (triples : List (Nat × Int × Bool)) :
    (mkLoggers δ triples).map (fun s => s.tag) = triples.map Prod.fst := by
  unfold mkLoggers
  rw [List.map_map]
  rfl

/-! ### Claim C8 -/

/-- Claim C8: registering systems in any order yields a schedule equal to
one stable sort of the registration list: it is sorted ascending by
priority, systems of equal priority keep their registration order (the
filter characterisation of stability), and each tick invokes `update(dt)`
on exactly the systems whose activity flag is set, in that order — the
shared log records their tags in schedule order.  This covers mid-run
insertion, since `regAll` folds `add_system` over any prefix. -/
theorem C8_scheduler_ordering (δ : Type) (triples : List (Nat × Int × Bool))
    (hnd : (triples.map Prod.fst).Nodup) :
    regAll (mkLoggers δ triples) = sortSystems (mkLoggers δ triples)
    ∧ SortedByPrio (regAll (mkLoggers δ triples))
    ∧ (∀ p, (regAll (mkLoggers δ triples)).filter (fun s => s.priority == p)
        = (mkLoggers δ triples).filter (fun s => s.priority == p))
    ∧ (∀ dt log0, sm_update (regAll (mkLoggers δ triples)) dt log0
        = log0 ++ ((regAll (mkLoggers δ triples)).filter
            (fun s => s.is_active)).map (fun s => s.tag)) := by
  have htags : ((mkLoggers δ triples).map (fun s => s.tag)).Nodup := by
    rw [mkLoggers_tags]
    exact hnd
  have h1 := regAll_eq_sortSystems (mkLoggers δ triples) htags
  refine ⟨h1, ?_, ?_, ?_⟩
  · rw [h1]
    exact sorted_sortSystems _
  · intro p
    rw [h1]
    exact filter_sortSystems p _
  · intro dt log0
    refine sm_update_log _ ?_ dt log0
    intro s hs dt2 log
    rw [h1] at hs
    have hs2 : s ∈ mkLoggers δ triples := (sortSystems_perm _).mem_iff.1 hs
    obtain ⟨tr, _, htr⟩ := List.mem_map.1 hs2
    rw [← htr]
    rfl

/-- Concrete instance of C8: priorities [50, 200, 100] registered in that
order run as [50, 100, 200]; after inserting a priority-75 system mid-run,
the next tick runs [50, 75, 100, 200]. -/
theorem C8_scheduler_ordering_witness :
    ((([(50, (50 : Int), true), (200, 200, true), (100, 100, true)]
        : List (Nat × Int × Bool)).map Prod.fst).Nodup)
    ∧ sm_update (regAll (mkLoggers Int
        [(50, 50, true), (200, 200, true), (100, 100, true)])) 1 []
      = [50, 100, 200]
    ∧ sm_update (regAll (mkLoggers Int
        [(50, 50, true), (200, 200, true), (100, 100, true), (75, 75, true)])) 1 []
      = [50, 75, 100, 200] :=
  ⟨by decide,
   ((C8_scheduler_ordering Int
      [(50, 50, true), (200, 200, true), (100, 100, true)]
      (by decide)).2.2.2 1 []).trans (by decide),
   ((C8_scheduler_ordering Int
      [(50, 50, true), (200, 200, true), (100, 100, true), (75, 75, true)]
      (by decide)).2.2.2 1 []).trans (by decide)⟩

/-! ### Built-in components (src/engine/ecs/components.py) over exact reals

Python floats are embedded as real numbers; every arithmetic step in the
claims below is exact in binary floating point, so the embedding is
faithful on the inputs considered. -/

/-- TransformComponent: position, rotation, scale.  (The component also
mirrors these fields into a shadow `EngineTransform`; the mirror carries
no independent state and is omitted.) -/
structure TransformC where
  px : ℝ
  py : ℝ
  rotation : ℝ
  sx : ℝ
  sy : ℝ

/-- TransformComponent.translate: `self.position += delta` (componentwise
Vector2 addition). -/
def TransformC.translate (t : TransformC) (dx dy : ℝ) : TransformC :=
  { t with px := t.px + dx, py := t.py + dy }

/-- VelocityComponent: velocity vector and optional max speed
(`max_speed = None` when unset). -/
structure VelocityC where
  vx : ℝ
  vy : ℝ
  max_speed : Option ℝ

/-- Vector2.magnitude: `math.sqrt(self.x * self.x + self.y * self.y)`. -/
noncomputable def magnitude (x y : ℝ) : ℝ :=
  Real.sqrt (x * x + y * y)

/-- Vector2.normalize: zero vector for a zero magnitude, else the vector
divided by its magnitude. -/
noncomputable def normalize (x y : ℝ) : ℝ × ℝ :=
  if magnitude x y = 0 then (0, 0) else (x / magnitude x y, y / magnitude x y)

/-- VelocityComponent.limit_speed:
`if self.max_speed and self.velocity.magnitude > self.max_speed:
self.velocity = self.velocity.normalize() * self.max_speed`.
Python truthiness makes both `None` and `0.0` falsy, so a zero max speed
skips the clamp entirely. -/
noncomputable def VelocityC.limit_speed (v : VelocityC) : VelocityC :=
  match v.max_speed with
  | none => v
  | some ms =>
    if ms ≠ 0 ∧ magnitude v.vx v.vy > ms then
      { v with
        vx := (normalize v.vx v.vy).1 * ms,
        vy := (normalize v.vx v.vy).2 * ms }
    else v

/-- HealthComponent: max, current, is-dead flag (Python ints). -/
structure HealthC where
  max_health : Int
  current_health : Int
  is_dead : Bool
deriving DecidableEq

/-- HealthComponent.take_damage: `self.current_health = max(0,
self.current_health - damage); if self.current_health <= 0: self.is_dead
= True`. -/
def HealthC.take_damage (h : HealthC) (damage : Int) : HealthC :=
  let ch := max 0 (h.current_health - damage)
  { h with
    current_health := ch,
    is_dead := if ch ≤ 0 then true else h.is_dead }

/-! ### Claim C10 -/

/-- Claim C10: `limit_speed()` with `max_speed` exactly 0 leaves the
velocity unchanged regardless of its magnitude (zero is falsy, exactly
like `None`); and the velocity is modified only when `max_speed` is
non-None and nonzero and the current magnitude strictly exceeds it. -/
theorem C10_limit_speed_guard (v : VelocityC) :
    (v.max_speed = some 0 → v.limit_speed = v)
    ∧ (v.max_speed = none → v.limit_speed = v)
    ∧ (v.limit_speed ≠ v →
        ∃ ms, v.max_speed = some ms ∧ ms ≠ 0 ∧ magnitude v.vx v.vy > ms) := by
  obtain ⟨vx, vy, ms⟩ := v
  refine ⟨?_, ?_, ?_⟩
  · intro h
    cases h
    simp [VelocityC.limit_speed]
  · intro h
    cases h
    simp [VelocityC.limit_speed]
  · intro h
    cases hms : ms with
    | none =>
      subst hms
      simp [VelocityC.limit_speed] at h
    | some msv =>
      subst hms
      by_cases hg : msv ≠ 0 ∧ magnitude vx vy > msv
      · exact ⟨msv, rfl, hg.1, hg.2⟩
      · exfalso
        apply h
        simp only [VelocityC.limit_speed]
        rw [if_neg hg]

/-- Concrete instance of C10: a fast velocity with `max_speed = 0` passes
through `limit_speed` unchanged. -/
theorem C10_limit_speed_guard_witness :
    (⟨3, 4, some 0⟩ : VelocityC).max_speed = some 0
    ∧ VelocityC.limit_speed ⟨3, 4, some 0⟩ = ⟨3, 4, some 0⟩ :=
  ⟨rfl, (C10_limit_speed_guard ⟨3, 4, some 0⟩).1 rfl⟩

/-! ### The World specialised to the built-in components

`GWorld` is the `World`/`EntityManager` state projected onto the three
built-in component types the scenario claims use.  `entities` models the
(always equal) key sets of `self.entities` and `self.components`; each
typed field is the per-type slice of the per-entity component dicts, and
the type index is consistent with it (claim C1).  System updates iterate
the matching entities; each iteration step only touches its own entity's
components, so list order stands in for Python's unspecified set order. -/

structure GWorld where
  entities : List Nat
  transforms : Nat → Option TransformC
  velocities : Nat → Option VelocityC
  healths : Nat → Option HealthC

/-- The three built-in component classes appearing in the scenarios. -/
inductive CompTag where
  | transform
  | velocity
  | health
deriving DecidableEq

/-- World.has_component → EntityManager.has_component:
`component_type in self.components[entity.id]`.  The result is `none` when
the entity id is not a key of `self.components` — Python raises `KeyError`
there (the id sets of `self.entities` and `self.components` always
coincide). -/
def GWorld.has_component (w : GWorld) (e : Nat) (T : CompTag) : Option Bool :=
  if w.entities.contains e then
    some (match T with
      | .transform => (w.transforms e).isSome
      | .velocity => (w.velocities e).isSome
      | .health => (w.healths e).isSome)
  else none

/-- World.destroy_entity → EntityManager.destroy_entity: remove every
component (their teardown hooks are base-class no-ops for the built-ins),
then delete the entity and its component map. -/
def GWorld.destroy_entity (w : GWorld) (e : Nat) : GWorld :=
  if w.entities.contains e then
    { entities := w.entities.erase e,
      transforms := fupd w.transforms e none,
      velocities := fupd w.velocities e none,
      healths := fupd w.healths e none }
  else w

/-- MovementSystem.update: for every entity with both Transform and
Velocity, clamp the velocity in place (`velocity.limit_speed()`), then
`transform.translate(velocity.velocity * delta_time)`. -/
noncomputable def movementUpdate (dt : ℝ) (w : GWorld) : GWorld :=
  let es := w.entities.filter
    (fun e => (w.transforms e).isSome && (w.velocities e).isSome)
  es.foldl (fun w2 e =>
    match w2.transforms e, w2.velocities e with
    | some t, some v =>
      let v2 := v.limit_speed
      let t2 := t.translate (v2.vx * dt) (v2.vy * dt)
      { w2 with
        transforms := fupd w2.transforms e (some t2),
        velocities := fupd w2.velocities e (some v2) }
    | _, _ => w2) w

/-- BoundarySystem.update: for every entity with a Transform, wrap the
position to the opposite edge when it leaves the screen (`wrap_around`),
else clamp it into the screen rectangle.  Note the wrap branch sets the
coordinate to the bare edge value (0 or the screen extent); it does not
subtract the overshoot. -/
noncomputable def boundaryUpdate (screen_width screen_height : ℝ)
    (wrap_around : Bool) (_dt : ℝ) (w : GWorld) : GWorld :=
  let es := w.entities.filter (fun e => (w.transforms e).isSome)
  es.foldl (fun w2 e =>
    match w2.transforms e with
    | some t =>
      let px := if wrap_around then
          (if t.px < 0 then screen_width
           else if t.px > screen_width then 0 else t.px)
        else max 0 (min screen_width t.px)
      let py := if wrap_around then
          (if t.py < 0 then screen_height
           else if t.py > screen_height then 0 else t.py)
        else max 0 (min screen_height t.py)
      { w2 with transforms := fupd w2.transforms e (some { t with px := px, py := py }) }
    | none => w2) w

/-- HealthSystem.update: collect the entities whose Health component has
`is_dead` set, then destroy them. -/
noncomputable def healthUpdate (_dt : ℝ) (w : GWorld) : GWorld :=
  let es := w.entities.filter (fun e => (w.healths e).isSome)
  let toDestroy := es.filter (fun e =>
    match w.healths e with
    | some h => h.is_dead
    | none => false)
  toDestroy.foldl (fun w2 e => w2.destroy_entity e) w

/-- MovementSystem: default priority 100. -/
noncomputable def movementSys : Sys ℝ GWorld :=
  ⟨0, 100, true, movementUpdate⟩

/-- BoundarySystem with its configuration: default priority 150. -/
noncomputable def boundarySys (screen_width screen_height : ℝ)
    (wrap_around : Bool) : Sys ℝ GWorld :=
  ⟨1, 150, true, boundaryUpdate screen_width screen_height wrap_around⟩

/-! ### Claim C6 -/

/-- The C6 scenario world: one entity with Transform position (795, 300)
and Velocity (20, 0), no max speed. -/
noncomputable def c6world : GWorld :=
  { entities := [0],
    transforms := fun e => if e = 0 then some ⟨795, 300, 0, 1, 1⟩ else none,
    velocities := fun e => if e = 0 then some ⟨20, 0, none⟩ else none,
    healths := fun _ => none }

/-- Movement (priority 100) and wrap-Boundary (priority 150, 800 by 600)
registered in the scheduler, then one tick with dt = 1. -/
noncomputable def c6final : GWorld :=
  sm_update (regAll [movementSys, boundarySys 800 600 true]) 1 c6world

theorem c6systems_eq :
    regAll [movementSys, boundarySys 800 600 true]
      = [movementSys, boundarySys 800 600 true] := by
  show add_system (add_system [] movementSys) (boundarySys 800 600 true) = _
  have h1 : add_system [] movementSys = [movementSys] := by
    unfold add_system
    simp [sortSystems, sortAux, insertSys]
  rw [h1]
  unfold add_system
  have h2 : [movementSys].any
      (fun s2 => s2.tag == (boundarySys 800 600 true).tag) = false := by
    simp [movementSys, boundarySys]
  rw [h2]
  show sortSystems [movementSys, boundarySys 800 600 true] = _
  show sortAux (insertSys (boundarySys 800 600 true) (insertSys movementSys [])) [] = _
  rw [show insertSys movementSys ([] : List (Sys ℝ GWorld)) = [movementSys] from rfl]
  show insertSys (boundarySys 800 600 true) [movementSys] = _
  unfold insertSys
  have h3 : ¬ (boundarySys 800 600 true).priority < movementSys.priority := by
    simp [movementSys, boundarySys]
  rw [if_neg h3]
  rfl

theorem c6final_eq : c6final.transforms 0 = some ⟨0, 300, 0, 1, 1⟩ := by
  unfold c6final
  rw [c6systems_eq]
  show (boundaryUpdate 800 600 true 1 (movementUpdate 1 c6world)).transforms 0 = _
  have hmov : movementUpdate 1 c6world
      = { c6world with
          transforms := fupd c6world.transforms 0 (some ⟨795 + 20 * 1, 300 + 0 * 1, 0, 1, 1⟩),
          velocities := fupd c6world.velocities 0 (some ⟨20, 0, none⟩) } := by
    unfold movementUpdate c6world
    simp [VelocityC.limit_speed, TransformC.translate]
  rw [hmov]
  unfold boundaryUpdate
  have hx1 : ¬ (795 + 20 * 1 : ℝ) < 0 := by norm_num
  have hx2 : (795 + 20 * 1 : ℝ) > 800 := by norm_num
  have hy1 : ¬ (300 + 0 * 1 : ℝ) < 0 := by norm_num
  have hy2 : ¬ (300 + 0 * 1 : ℝ) > 600 := by norm_num
  simp [c6world, fupd, hx1, hx2, hy1, hy2]
  norm_num

/-- Counterexample to claim C6 as stated: after one tick the entity's
position is (0, 300), not (15, 300) — the wrap branch of BoundarySystem
sets `pos.x = 0` when `pos.x > screen_width`, discarding the 15-pixel
overshoot instead of wrapping it. -/
theorem C6_movement_boundary_counterexample :
    c6final.transforms 0 ≠ some ⟨15, 300, 0, 1, 1⟩ := by
  rw [c6final_eq]
  intro h
  rw [Option.some_inj] at h
  have h2 : (0 : ℝ) = 15 := congrArg TransformC.px h
  norm_num at h2

/-- Claim C6 amended: with Transform (795, 300), Velocity (20, 0),
Movement (priority 100) and wrap-Boundary (priority 150, 800 by 600),
one tick with dt = 1.0 moves the entity to 815 and the wrap then
teleports it to x = 0: the final position is (0, 300). -/
theorem C6_movement_boundary_amended :
    c6final.transforms 0 = some ⟨0, 300, 0, 1, 1⟩ :=
  c6final_eq

/-! ### Claim C7 -/

/-- The C7 scenario world: one entity with Health max 100, current 15. -/
noncomputable def c7world : GWorld :=
  { entities := [0],
    transforms := fun _ => none,
    velocities := fun _ => none,
    healths := fun e => if e = 0 then some ⟨100, 15, false⟩ else none }

/-- The health component after `take_damage(20)`. -/
def c7damaged : HealthC :=
  HealthC.take_damage ⟨100, 15, false⟩ 20

/-- The world after the damage is applied in place. -/
noncomputable def c7world2 : GWorld :=
  { c7world with healths := fun e => if e = 0 then some c7damaged else none }

/-- The world after one Health-system tick. -/
noncomputable def c7final : GWorld :=
  healthUpdate 1 c7world2

theorem c7damaged_eq : c7damaged = ⟨100, 0, true⟩ := by
  unfold c7damaged HealthC.take_damage
  norm_num

theorem c7final_entities : c7final.entities = [] := rfl

theorem c7final_has_none :
    ∀ T, c7final.has_component 0 T = none := by
  intro T
  unfold GWorld.has_component
  rw [c7final_entities]
  rfl

/-- Counterexample to claim C7 as stated: after `take_damage(20)` and one
Health-system tick, the entity is destroyed, and a subsequent
`has_component` call on it does not return false — it raises `KeyError`
(`self.components[entity.id]` on a deleted key), modelled as no boolean
result at all. -/
theorem C7_health_death_counterexample :
    c7final.has_component 0 CompTag.health ≠ some false
    ∧ c7final.has_component 0 CompTag.health = none := by
  have h2 := c7final_has_none CompTag.health
  refine ⟨?_, h2⟩
  rw [h2]
  intro h3
  cases h3

/-- Claim C7 amended: `take_damage(20)` on Health (max 100, current 15)
clamps current health to 0 and sets is-dead; one Health-system tick then
destroys the entity; a subsequent `has_component` call for that entity, on
any component type, raises a missing-entity `KeyError` (modelled as `none`)
rather than returning false. -/
theorem C7_health_death_amended :
    c7damaged.current_health = 0
    ∧ c7damaged.is_dead = true
    ∧ c7final.entities = []
    ∧ c7final.has_component 0 CompTag.health = none
    ∧ c7final.has_component 0 CompTag.transform = none
    ∧ c7final.has_component 0 CompTag.velocity = none := by
  have hd := c7damaged_eq
  refine ⟨by rw [hd], by rw [hd], c7final_entities,
    c7final_has_none _, c7final_has_none _, c7final_has_none _⟩

end Ecs
